import Mathlib

/-!
Verification development for the Emby-Torrent-Bot repository.

We shallowly embed the parts of the TypeScript source that the claims
concern:

* `src/utils/seedingManager.ts` — the seeding lifecycle governor: the
  `torrentTimings` map of `TorrentTimingInfo` records and the operations
  `trackTorrentForSeeding`, `markTorrentCompleted`,
  `checkAndStopOverseededTorrents`, `updateTorrentCompletionStatus`,
  `manuallyStopSeeding`, `removeTorrentTracking`, plus the
  `SEEDING_MULTIPLIER` configuration parse.
* `src/qbittorrent.ts` — the session-authenticated client: `login`,
  `getTorrents`, `getTorrentByHash`, `getSeedingTorrents`,
  `addTorrentByMagnet`, `qbitPauseTorrents`, `qbitDeleteTorrents`.
* `src/discordClient.ts` / `src/bot/handlers/messageHandler.ts` — the
  per-handle body of `updateTrackedTorrents` (the progress projector).

Modelling conventions:
* JavaScript strings are lists of Unicode code points (`JStr`); `str`
  converts a Lean string literal.  Only ASCII data appears in the claims.
* JavaScript numbers holding Unix timestamps/durations are `Int` (the code
  only adds, subtracts and compares them); progress fractions are `Rat`
  (the code only compares them, never computes with them, so any linearly
  ordered field is a faithful model of those comparisons).
* Optional JS fields are `Option`; JS truthiness tests on them are the
  `truthy…` helpers (`undefined` and `0` are falsy, `''` is falsy).
* The JS `Map` is an insertion-ordered association list: `mfind` is
  `Map.get`, `mset` is `Map.set` (replace in place, else append).
* Network effects are oracles passed as explicit arguments; each embedded
  client function also returns the list of network calls it performed, in
  order, so that claims about "performs no authentication call" or
  "exactly one retry" are statements about that trace.
-/

namespace ETB

/-- JavaScript strings, as lists of Unicode code points. -/
abbrev JStr := List Nat

/-- Code points of a Lean string literal. -/
def str (s : String) : JStr := s.data.map (fun c => c.toNat)

/-- `String.prototype.toLowerCase` restricted to ASCII (all string data in
the embedded code is ASCII). -/
def toLowerCode (n : Nat) : Nat := if 65 ≤ n ∧ n ≤ 90 then n + 32 else n

/-- Lowercase an embedded string. -/
def toLowerS (s : JStr) : JStr := s.map toLowerCode

/-- `isPrefixN p s`: `p` is a prefix of `s`. -/
def isPrefixN : JStr → JStr → Bool
  | [], _ => true
  | _ :: _, [] => false
  | a :: as, b :: bs => a == b && isPrefixN as bs

/-- `String.prototype.includes pat` (substring test). -/
def containsSub (pat : JStr) : JStr → Bool
  | [] => pat.isEmpty
  | c :: rest => isPrefixN pat (c :: rest) || containsSub pat rest

/-- JS truthiness of a `string` value (empty string is falsy). -/
def truthyStr (s : JStr) : Bool := !s.isEmpty

/-- JS truthiness of a `string | undefined` value. -/
def truthyOptStr : Option JStr → Bool
  | none => false
  | some s => truthyStr s

/-- JS truthiness of a `number | undefined` value (`undefined` and `0` are
falsy). -/
def truthyOptInt : Option Int → Bool
  | none => false
  | some n => n != 0

/-- The fields of qBittorrent's torrent objects that the embedded code
reads (`TorrentInfo` in `src/qbittorrent.ts`). -/
structure TorrentInfo where
  hash : JStr
  name : JStr
  added_on : Int
  progress : Rat
  state : JStr
deriving DecidableEq, Repr

/-- `TorrentTimingInfo` from `src/utils/seedingManager.ts`. -/
structure TorrentTimingInfo where
  hash : JStr
  name : JStr
  downloadStartTime : Int
  downloadCompletionTime : Option Int
  downloadDuration : Option Int
  seedingStopTime : Option Int
  stopped : Bool
deriving DecidableEq, Repr

/-- The `torrentTimings` JS `Map`, as an insertion-ordered association
list. -/
abbrev TimingMap := List (JStr × TorrentTimingInfo)

/-- `Map.get` (first entry with the key). -/
def mfind (m : TimingMap) (k : JStr) : Option TorrentTimingInfo :=
  match m with
  | [] => none
  | p :: rest => if p.1 = k then some p.2 else mfind rest k

/-- `Map.set`: replace the value of an existing key in place, otherwise
append a new entry (JS `Map` insertion-order semantics; a JS `Map` never
holds a duplicate key, so replacing the first occurrence is exact). -/
def mset : TimingMap → JStr → TorrentTimingInfo → TimingMap
  | [], k, v => [(k, v)]
  | p :: rest, k, v => if p.1 = k then (k, v) :: rest else p :: mset rest k v

/-- The keys of a map, in order. -/
def keysOf (m : TimingMap) : List JStr := m.map (fun p => p.1)

/-- Well-formedness of a `TimingMap`: keys are pairwise distinct.  This
holds for every map a JS `Map` can denote. -/
abbrev NodupKeys (m : TimingMap) : Prop := (keysOf m).Nodup

end ETB

namespace ETB

/-! ### Basic association-list lemmas -/

theorem mfind_eq_none_iff {m : TimingMap} {k : JStr} :
    mfind m k = none ↔ k ∉ keysOf m := by
  induction m with
  | nil => simp [mfind, keysOf]
  | cons p rest ih =>
    by_cases hp : p.1 = k
    · simp [mfind, hp, keysOf]
    · simp only [mfind, hp, if_false, keysOf, List.map_cons, List.mem_cons]
      rw [ih]
      constructor
      · rintro h (h1 | h2)
        · exact hp h1.symm
        · exact h h2
      · intro h h2
        exact h (Or.inr h2)

theorem mfind_mset_self (m : TimingMap) (k : JStr) (v : TorrentTimingInfo) :
    mfind (mset m k v) k = some v := by
  induction m with
  | nil => simp [mset, mfind]
  | cons p rest ih =>
    by_cases hp : p.1 = k
    · simp [mset, hp, mfind]
    · simp [mset, hp, mfind, ih]

theorem mfind_mset_ne (m : TimingMap) (k k' : JStr) (v : TorrentTimingInfo)
    (h : k' ≠ k) : mfind (mset m k v) k' = mfind m k' := by
  have hkk : ¬(k = k') := fun hh => h hh.symm
  induction m with
  | nil => simp [mset, mfind, hkk]
  | cons p rest ih =>
    by_cases hp : p.1 = k
    · have hp' : ¬(p.1 = k') := by rw [hp]; exact hkk
      simp only [mset, hp, if_true, mfind, hkk, if_false, hp']
    · simp only [mset, hp, if_false, mfind]
      by_cases hp' : p.1 = k'
      · simp [hp']
      · simp [hp', ih]

theorem mset_eq_self {m : TimingMap} {k : JStr} {v : TorrentTimingInfo}
    (h : mfind m k = some v) : mset m k v = m := by
  induction m with
  | nil => simp [mfind] at h
  | cons p rest ih =>
    by_cases hp : p.1 = k
    · simp only [mfind, hp, if_true, Option.some.injEq] at h
      simp only [mset, hp, if_true]
      have : p = (k, v) := by
        cases p with
        | mk a b => simp_all
      rw [this]
    · simp only [mfind, hp, if_false] at h
      simp [mset, hp, ih h]

theorem mem_keys_mset {m : TimingMap} {k x : JStr} {v : TorrentTimingInfo} :
    x ∈ keysOf (mset m k v) ↔ x ∈ keysOf m ∨ x = k := by
  induction m with
  | nil => simp [mset, keysOf]
  | cons p rest ih =>
    by_cases hp : p.1 = k
    · simp only [mset, hp, if_true, keysOf, List.map_cons, List.mem_cons]
      constructor
      · rintro (h1 | h2)
        · exact Or.inr h1
        · exact Or.inl (Or.inr h2)
      · rintro ((h1 | h2) | h3)
        · exact Or.inl (hp ▸ h1)
        · exact Or.inr h2
        · exact Or.inl h3
    · simp only [mset, hp, if_false, keysOf, List.map_cons, List.mem_cons]
      rw [show (List.map (fun p => p.1) (mset rest k v)) = keysOf (mset rest k v) from rfl]
      rw [show (List.map (fun p => p.1) rest) = keysOf rest from rfl]
      rw [ih]
      tauto

theorem nodup_mset {m : TimingMap} {k : JStr} {v : TorrentTimingInfo}
    (h : NodupKeys m) : NodupKeys (mset m k v) := by
  induction m with
  | nil => simp [mset, NodupKeys, keysOf]
  | cons p rest ih =>
    by_cases hp : p.1 = k
    · subst hp
      simpa [mset, NodupKeys, keysOf] using h
    · unfold NodupKeys keysOf at h ⊢
      simp only [mset, hp, if_false, List.map_cons, List.nodup_cons] at h ⊢
      constructor
      · intro hmem
        have := mem_keys_mset.mp hmem
        rcases this with h1 | h2
        · exact h.1 h1
        · exact hp h2
      · exact ih h.2

theorem mem_of_mfind {m : TimingMap} {k : JStr} {v : TorrentTimingInfo}
    (h : mfind m k = some v) : (k, v) ∈ m := by
  induction m with
  | nil => simp [mfind] at h
  | cons p rest ih =>
    by_cases hp : p.1 = k
    · simp only [mfind, hp, if_true, Option.some.injEq] at h
      have hpv : p = (k, v) := by
        cases p with
        | mk a b => simp_all
      rw [hpv]
      exact List.mem_cons_self _ _
    · simp only [mfind, hp, if_false] at h
      exact List.mem_cons_of_mem _ (ih h)

theorem mem_keys_of_mem {m : TimingMap} {p : JStr × TorrentTimingInfo}
    (h : p ∈ m) : p.1 ∈ keysOf m := List.mem_map_of_mem (fun q => q.1) h

theorem mfind_of_mem_nodup {m : TimingMap} {k : JStr} {v : TorrentTimingInfo}
    (hn : NodupKeys m) (h : (k, v) ∈ m) : mfind m k = some v := by
  induction m with
  | nil => simp at h
  | cons p rest ih =>
    unfold NodupKeys keysOf at hn
    simp only [List.map_cons, List.nodup_cons] at hn
    rcases List.mem_cons.mp h with h1 | h2
    · rw [← h1]
      simp [mfind]
    · by_cases hp : p.1 = k
      · exfalso
        apply hn.1
        rw [hp]
        exact mem_keys_of_mem h2
      · simp only [mfind, hp, if_false]
        exact ih hn.2 h2

theorem nodup_filter {m : TimingMap} (pred : JStr × TorrentTimingInfo → Bool)
    (h : NodupKeys m) : NodupKeys (m.filter pred) := by
  unfold NodupKeys keysOf at h ⊢
  exact List.Nodup.sublist (List.Sublist.map _ (List.filter_sublist m)) h

/-- Value found in a map transformed by a key-preserving entry rewrite. -/
theorem mfind_map_entries (m : TimingMap) (k : JStr)
    (c : JStr → Bool) (g : TorrentTimingInfo → TorrentTimingInfo) :
    mfind (m.map (fun p => if c p.1 then (p.1, g p.2) else p)) k
      = (mfind m k).map (fun v => if c k then g v else v) := by
  induction m with
  | nil => simp [mfind]
  | cons p rest ih =>
    by_cases hp : p.1 = k
    · by_cases hc : c p.1
      · simp [mfind, hp, hc, hp ▸ hc]
      · have : ¬ c k := by rw [← hp]; exact hc
        simp [mfind, hp, hc, this]
    · by_cases hc : c p.1
      · simp [mfind, hp, hc, ih]
      · simp [mfind, hp, hc, ih]

theorem nodup_map_entries (m : TimingMap)
    (c : JStr → Bool) (g : TorrentTimingInfo → TorrentTimingInfo)
    (h : NodupKeys m) :
    NodupKeys (m.map (fun p => if c p.1 then (p.1, g p.2) else p)) := by
  unfold NodupKeys keysOf at h ⊢
  rw [List.map_map]
  have : ((fun p => p.1) ∘ fun p : JStr × TorrentTimingInfo =>
      if c p.1 then (p.1, g p.2) else p) = fun p => p.1 := by
    funext p
    by_cases hc : c p.1 <;> simp [hc]
  rw [this]
  exact h

/-! ### `src/utils/seedingManager.ts` — the lifecycle governor

`Date.now()` is passed in as the explicit parameter `now` (already divided
by 1000 and floored, as the source does at every use).  The configured
multiplier `SEEDING_MULTIPLIER` is the parameter `mult`.  Functions that
call `qbitPauseTorrents` take the call's boolean outcome as the oracle
`pauseOk` and return the list of hash batches they passed to it. -/

/-- `trackTorrentForSeeding` (seedingManager.ts:34-49): insert a fresh
record unless the hash is already tracked. -/
def trackTorrentForSeeding (t : TorrentInfo) (m : TimingMap) : TimingMap :=
  if (mfind m t.hash).isSome then m
  else
    mset m t.hash
      { hash := t.hash
        name := t.name
        downloadStartTime := t.added_on
        downloadCompletionTime := none
        downloadDuration := none
        seedingStopTime := none
        stopped := false }

/-- The body of `markTorrentCompleted` once a record exists
(seedingManager.ts:65-76): a no-op when `downloadCompletionTime` is truthy,
otherwise set the three completion fields from `now`. -/
def markCompletedExisting (mult now : Int) (tr : TorrentTimingInfo) :
    TorrentTimingInfo :=
  if truthyOptInt tr.downloadCompletionTime then tr
  else
    let downloadDuration := now - tr.downloadStartTime
    let seedingDuration := downloadDuration * mult
    { tr with
      downloadCompletionTime := some now
      downloadDuration := some downloadDuration
      seedingStopTime := some (now + seedingDuration) }

/-- `markTorrentCompleted` (seedingManager.ts:55-83).  When the torrent is
not yet tracked the source calls `trackTorrentForSeeding` and then calls
itself again; after the insert the lookup succeeds, so that recursion is
unfolded here into one step (the recursive call recomputes `Date.now()`,
modelled as the same instant `now`). -/
def markTorrentCompleted (mult now : Int) (t : TorrentInfo) (m : TimingMap) :
    TimingMap :=
  match mfind m t.hash with
  | some tr => mset m t.hash (markCompletedExisting mult now tr)
  | none =>
    let m1 := trackTorrentForSeeding t m
    match mfind m1 t.hash with
    | some tr => mset m1 t.hash (markCompletedExisting mult now tr)
    | none => m1

/-- The per-record test of the sweep's collection loop
(seedingManager.ts:92-100): skip records that are stopped or whose
`seedingStopTime` is falsy, collect those whose stop time has elapsed. -/
def dueForStop (now : Int) (tr : TorrentTimingInfo) : Bool :=
  if tr.stopped || !truthyOptInt tr.seedingStopTime then false
  else
    match tr.seedingStopTime with
    | some st => decide (st ≤ now)
    | none => false

/-- The `torrentsToStop` list collected by a sweep, in map order. -/
def sweepBatch (now : Int) (m : TimingMap) : List JStr :=
  (m.filter (fun p => dueForStop now p.2)).map (fun p => p.1)

/-- Result of a sweep: the updated map and the hash batches passed to
`qbitPauseTorrents` (at most one). -/
structure SweepResult where
  map : TimingMap
  pauseCalls : List (List JStr)
deriving DecidableEq, Repr

/-- `checkAndStopOverseededTorrents` (seedingManager.ts:88-122): collect the
due records; if any, issue one batched pause; on success mark exactly the
batch's records stopped (the source mutates each collected record in
place via `Map.get`, modelled as a key-preserving entry rewrite), on
failure change nothing. -/
def checkAndStopOverseededTorrents (now : Int) (pauseOk : Bool)
    (m : TimingMap) : SweepResult :=
  let torrentsToStop := sweepBatch now m
  if torrentsToStop.isEmpty then { map := m, pauseCalls := [] }
  else if pauseOk then
    { map := m.map (fun p =>
        if torrentsToStop.contains p.1 then (p.1, { p.2 with stopped := true })
        else p)
      pauseCalls := [torrentsToStop] }
  else { map := m, pauseCalls := [torrentsToStop] }

/-- `manuallyStopSeeding` (seedingManager.ts:198-224): empty input returns
`false` with no pause call; otherwise one batched pause, and on success
every tracked hash of the batch is marked stopped. -/
def manuallyStopSeeding (hashes : List JStr) (pauseOk : Bool)
    (m : TimingMap) : TimingMap × List (List JStr) × Bool :=
  if hashes.isEmpty then (m, [], false)
  else if pauseOk then
    (m.map (fun p =>
        if hashes.contains p.1 then (p.1, { p.2 with stopped := true })
        else p),
      [hashes], true)
  else (m, [hashes], false)

/-- One iteration of the loop in `updateTorrentCompletionStatus`
(seedingManager.ts:137-149).  The source reads `tracking` once before both
`if`s, so the two branches are mutually exclusive. -/
def updateStep (mult now : Int) (m : TimingMap) (t : TorrentInfo) :
    TimingMap :=
  match mfind m t.hash with
  | none =>
    if decide (t.progress < 1) then trackTorrentForSeeding t m else m
  | some tr =>
    if !truthyOptInt tr.downloadCompletionTime && decide (1 ≤ t.progress) then
      markTorrentCompleted mult now t m
    else m

/-- `updateTorrentCompletionStatus` (seedingManager.ts:128-153) in the
successful-fetch case: fold the loop body over the fetched torrent list.
(On a fetch error the source returns with the map unchanged and it never
calls `qbitPauseTorrents` on any path.) -/
def updateTorrentCompletionStatus (mult now : Int)
    (torrents : List TorrentInfo) (m : TimingMap) : TimingMap :=
  torrents.foldl (updateStep mult now) m

/-- `removeTorrentTracking` (seedingManager.ts:185-191). -/
def removeTorrentTracking (h : JStr) (m : TimingMap) : TimingMap :=
  m.filter (fun p => p.1 ≠ h)

/-! ### The `SEEDING_MULTIPLIER` configuration parse
(seedingManager.ts:18-25): `parseInt(process.env.SEEDING_TIME_MULTIPLIER
|| '10')`, substituting 10 with a warning when the result is `NaN` or not
positive. -/

/-- Code points JS `parseInt` skips as leading whitespace. -/
def isSpaceCode (n : Nat) : Bool :=
  n == 32 || n == 9 || n == 10 || n == 13 || n == 11 || n == 12

/-- Decimal digit code point. -/
def isDigitCode (n : Nat) : Bool := 48 ≤ n && n ≤ 57

/-- Hexadecimal digit code point. -/
def isHexDigitCode (n : Nat) : Bool :=
  isDigitCode n || (97 ≤ n && n ≤ 102) || (65 ≤ n && n ≤ 70)

/-- Value of a hexadecimal digit code point. -/
def hexVal (n : Nat) : Nat :=
  if 97 ≤ n then n - 87 else if 65 ≤ n then n - 55 else n - 48

/-- Value of a maximal leading run of hexadecimal digits; `none` when the
run is empty (`NaN`). -/
def hexDigitsValue (s : List Nat) : Option Nat :=
  let ds := s.takeWhile isHexDigitCode
  if ds.isEmpty then none
  else some (ds.foldl (fun acc d => acc * 16 + hexVal d) 0)

/-- Value of a maximal leading run of decimal digits (radix 10). -/
def decDigitsValue (s : List Nat) : Option Nat :=
  let ds := s.takeWhile isDigitCode
  if ds.isEmpty then none
  else some (ds.foldl (fun acc d => acc * 10 + (d - 48)) 0)

/-- The unsigned part of JS `parseInt` with no radix argument: a `0x`/`0X`
prefix selects base 16, otherwise the maximal leading run of decimal
digits is parsed; an empty run is `NaN` (`none`). -/
def parseIntBody (s : List Nat) : Option Nat :=
  match s with
  | c0 :: c1 :: rest =>
    if c0 == 48 && (c1 == 120 || c1 == 88) then hexDigitsValue rest
    else decDigitsValue (c0 :: c1 :: rest)
  | _ => decDigitsValue s

/-- JS `parseInt(s)` (no radix): skip leading whitespace, honour one
optional sign, parse the maximal digit prefix; `none` models `NaN` (an
empty remainder parses to `NaN` through the empty digit run). -/
def parseIntJS (s : JStr) : Option Int :=
  match s.dropWhile isSpaceCode with
  | [] => none
  | c :: rest =>
    if c == 45 then (parseIntBody rest).map (fun v => -(v : Int))
    else if c == 43 then (parseIntBody rest).map (fun v => (v : Int))
    else (parseIntBody (c :: rest)).map (fun v => (v : Int))

/-- The `SEEDING_MULTIPLIER` initialiser (seedingManager.ts:18-25), as a
function of the raw `process.env.SEEDING_TIME_MULTIPLIER` value: returns
the multiplier and whether the invalid-value warning was printed.
`env || '10'` makes `undefined` and the empty string fall back to `'10'`. -/
def seedingMultiplier (env : Option JStr) : Int × Bool :=
  let s := match env with
    | none => str "10"
    | some v => if truthyStr v then v else str "10"
  match parseIntJS s with
  | none => (10, true)
  | some m => if m ≤ 0 then (10, true) else (m, false)

/-! ### Governor operations as a transition system

`GovOp` enumerates every exported seedingManager operation that touches
`torrentTimings`; `applyGovOp` runs one of them, also yielding the hash
batches that the *sweep* (`checkAndStopOverseededTorrents`) passed to
`qbitPauseTorrents` (claims C1 and C3 quantify over sweep-issued pause
requests; `manuallyStopSeeding`'s pause is deliberately outside that
trace). -/

inductive GovOp where
  | track (t : TorrentInfo)
  | mark (now : Int) (t : TorrentInfo)
  | sweep (now : Int) (pauseOk : Bool)
  | reconcile (now : Int) (torrents : List TorrentInfo)
  | manual (hashes : List JStr) (pauseOk : Bool)
  | remove (h : JStr)
deriving DecidableEq, Repr

/-- Apply one governor operation; the second component is the list of pause
batches issued by a sweep. -/
def applyGovOp (mult : Int) (m : TimingMap) : GovOp → TimingMap × List (List JStr)
  | .track t => (trackTorrentForSeeding t m, [])
  | .mark now t => (markTorrentCompleted mult now t m, [])
  | .sweep now pauseOk =>
    let r := checkAndStopOverseededTorrents now pauseOk m
    (r.map, r.pauseCalls)
  | .reconcile now ts => (updateTorrentCompletionStatus mult now ts m, [])
  | .manual hashes pauseOk => ((manuallyStopSeeding hashes pauseOk m).1, [])
  | .remove h => (removeTorrentTracking h m, [])

/-- Run a sequence of governor operations, collecting all sweep-issued
pause batches in order. -/
def runGov (mult : Int) (m : TimingMap) : List GovOp → TimingMap × List (List JStr)
  | [] => (m, [])
  | op :: rest =>
    let r1 := applyGovOp mult m op
    let r2 := runGov mult r1.1 rest
    (r2.1, r1.2 ++ r2.2)

/-- The reachable states of the `torrentTimings` map: the empty map at
process start, closed under every exported operation. -/
inductive Reachable (mult : Int) : TimingMap → Prop where
  | init : Reachable mult []
  | step (m : TimingMap) (op : GovOp) (h : Reachable mult m) :
      Reachable mult (applyGovOp mult m op).1

/-- The per-record completion invariant of claim C1: the three completion
fields are all unset, or all set with
`seedingStopTime = downloadCompletionTime + downloadDuration * mult`. -/
def recOK (mult : Int) (tr : TorrentTimingInfo) : Bool :=
  match tr.downloadCompletionTime, tr.downloadDuration, tr.seedingStopTime with
  | none, none, none => true
  | some c, some d, some s => s == c + d * mult
  | _, _, _ => false

/-! ### `src/qbittorrent.ts` — the session-authenticated client

The module-level `sid` variable is threaded explicitly: each function takes
the current `sid` and returns the updated one.  Remote responses are
oracles: `Option JStr` for a login (`some s` = HTTP 200 `"Ok."` with an
`SID` cookie whose value is `s`; `none` = any failing response, missing
cookie, or network error — all paths on which the source returns `false`
without changing `sid`), `FetchR` for a torrent-list GET, and `PostR` for
a pause/delete POST.  Each function also returns the list of network
requests it issued, in order. -/

/-- One network request, by endpoint kind. -/
inductive NetCall where
  | auth
  | fetch
  | pause
  | addPost
  | del
deriving DecidableEq, Repr

/-- Outcome of a GET of `/api/v2/torrents/info`. -/
inductive FetchR where
  | ok (ts : List TorrentInfo)
  | err403
  | errOther
deriving DecidableEq, Repr

/-- Outcome of a pause/delete POST. -/
inductive PostR where
  | ok200
  | okBad
  | err403
  | errNet
deriving DecidableEq, Repr

/-- The `QBITTORRENT_URL` / `QBITTORRENT_USERNAME` / `QBITTORRENT_PASSWORD`
environment values (`none` = unset; the source tests them with JS
truthiness, so the empty string also counts as missing). -/
structure QbitConfig where
  url : Option JStr
  username : Option JStr
  password : Option JStr
deriving DecidableEq, Repr

/-- `login` (qbittorrent.ts:250-280): with incomplete configuration return
`false` making no network call; otherwise one POST to the login endpoint,
storing the SID cookie on full success and leaving `sid` untouched on any
failure.  Returns (success, new sid, calls). -/
def login (cfg : QbitConfig) (outcome : Option JStr) (sid : JStr) :
    Bool × JStr × List NetCall :=
  if !truthyOptStr cfg.url || !truthyOptStr cfg.username
      || !truthyOptStr cfg.password then
    (false, sid, [])
  else
    match outcome with
    | some s => (true, s, [.auth])
    | none => (false, sid, [.auth])

/-- A `getTorrents`-style result: `torrents` and/or `error`. -/
structure GetTorrentsResult where
  torrents : Option (List TorrentInfo)
  error : Option JStr
deriving DecidableEq, Repr

/-- The part of `getTorrents` after the initial lazy-login check
(qbittorrent.ts:346-378): URL guard, first fetch, and on a 403 clear the
session, re-login once and retry the fetch exactly once. -/
def getTorrentsFetch (cfg : QbitConfig) (loginOut2 : Option JStr)
    (fetch1 fetch2 : FetchR) (sid : JStr) (calls : List NetCall) :
    GetTorrentsResult × JStr × List NetCall :=
  if !truthyOptStr cfg.url then
    ({ torrents := none, error := some (str "qBittorrent URL not configured.") },
      sid, calls)
  else
    match fetch1 with
    | .ok ts => ({ torrents := some ts, error := none }, sid, calls ++ [.fetch])
    | .errOther =>
      ({ torrents := none, error := some (str "Error fetching torrents") },
        sid, calls ++ [.fetch])
    | .err403 =>
      let r := login cfg loginOut2 []
      if r.1 && truthyOptStr cfg.url then
        match fetch2 with
        | .ok ts =>
          ({ torrents := some ts, error := none }, r.2.1,
            calls ++ [.fetch] ++ r.2.2 ++ [.fetch])
        | _ =>
          ({ torrents := none,
             error := some (str "Error getting torrents after re-login") },
            r.2.1, calls ++ [.fetch] ++ r.2.2 ++ [.fetch])
      else
        ({ torrents := none,
           error := some (str "Failed to re-login to qBittorrent after session expiry.") },
          r.2.1, calls ++ [.fetch] ++ r.2.2)

/-- `getTorrents` (qbittorrent.ts:339-379): log in lazily when no session
is cached, then fetch with one transparent re-login-and-retry on a 403. -/
def getTorrents (cfg : QbitConfig) (loginOut1 loginOut2 : Option JStr)
    (fetch1 fetch2 : FetchR) (sid : JStr) :
    GetTorrentsResult × JStr × List NetCall :=
  if !truthyStr sid then
    let r := login cfg loginOut1 sid
    if !r.1 then
      ({ torrents := none,
         error := some (str "Failed to login to qBittorrent. Check credentials and qBittorrent WebUI settings.") },
        r.2.1, r.2.2)
    else getTorrentsFetch cfg loginOut2 fetch1 fetch2 r.2.1 r.2.2
  else getTorrentsFetch cfg loginOut2 fetch1 fetch2 sid []

/-- `SEEDING_STATES` (qbittorrent.ts:381-387). -/
def SEEDING_STATES : List JStr :=
  [str "uploading", str "stalledUP", str "forcedUP", str "queuedUP",
    str "checkingUP"]

/-- `getSeedingTorrents` (qbittorrent.ts:389-404): filter the fetched list
by `SEEDING_STATES.includes(torrent.state.toLowerCase())`. -/
def getSeedingTorrents (cfg : QbitConfig) (loginOut1 loginOut2 : Option JStr)
    (fetch1 fetch2 : FetchR) (sid : JStr) :
    GetTorrentsResult × JStr × List NetCall :=
  let r := getTorrents cfg loginOut1 loginOut2 fetch1 fetch2 sid
  if truthyOptStr r.1.error then
    ({ torrents := none, error := r.1.error }, r.2)
  else
    match r.1.torrents with
    | some ts =>
      ({ torrents := some (ts.filter (fun t =>
            SEEDING_STATES.contains (toLowerS t.state)))
         error := none }, r.2)
    | none => ({ torrents := some [], error := none }, r.2)

/-- `getTorrentByHash` (qbittorrent.ts:406-453): like `getTorrents` but
returns the first torrent of the filtered response, and `undefined` on
every failure path. -/
def getTorrentByHash (cfg : QbitConfig) (loginOut1 loginOut2 : Option JStr)
    (fetch1 fetch2 : FetchR) (sid : JStr) :
    Option TorrentInfo × JStr × List NetCall :=
  if !truthyStr sid then
    let r := login cfg loginOut1 sid
    if !r.1 then (none, r.2.1, r.2.2)
    else getTorrentByHashFetch cfg loginOut2 fetch1 fetch2 r.2.1 r.2.2
  else getTorrentByHashFetch cfg loginOut2 fetch1 fetch2 sid []
where
  /-- Lines 414-452: URL guard, fetch, one re-login-and-retry on 403. -/
  getTorrentByHashFetch (cfg : QbitConfig) (loginOut2 : Option JStr)
      (fetch1 fetch2 : FetchR) (sid : JStr) (calls : List NetCall) :
      Option TorrentInfo × JStr × List NetCall :=
    if !truthyOptStr cfg.url then (none, sid, calls)
    else
      match fetch1 with
      | .ok ts => (ts.head?, sid, calls ++ [.fetch])
      | .errOther => (none, sid, calls ++ [.fetch])
      | .err403 =>
        let r := login cfg loginOut2 []
        if r.1 && truthyOptStr cfg.url then
          match fetch2 with
          | .ok ts => (ts.head?, r.2.1, calls ++ [.fetch] ++ r.2.2 ++ [.fetch])
          | _ => (none, r.2.1, calls ++ [.fetch] ++ r.2.2 ++ [.fetch])
        else (none, r.2.1, calls ++ [.fetch] ++ r.2.2)

/-- `qbitPauseTorrents` (qbittorrent.ts:647-721): empty input succeeds with
no network call; otherwise lazy login, URL guard, one pause POST, and on a
403 clear the session, re-login and retry the POST exactly once. -/
def qbitPauseTorrents (cfg : QbitConfig) (loginOut1 loginOut2 : Option JStr)
    (post1 post2 : PostR) (hashes : List JStr) (sid : JStr) :
    Bool × JStr × List NetCall :=
  if hashes.isEmpty then (true, sid, [])
  else if !truthyStr sid then
    let r := login cfg loginOut1 sid
    if !r.1 then (false, r.2.1, r.2.2)
    else qbitPauseTorrentsPost cfg loginOut2 post1 post2 r.2.1 r.2.2
  else qbitPauseTorrentsPost cfg loginOut2 post1 post2 sid []
where
  /-- Lines 658-720: URL guard, pause POST, one re-login-and-retry on 403
  (the retry branch checks only the re-login result, not the URL again). -/
  qbitPauseTorrentsPost (cfg : QbitConfig) (loginOut2 : Option JStr)
      (post1 post2 : PostR) (sid : JStr) (calls : List NetCall) :
      Bool × JStr × List NetCall :=
    if !truthyOptStr cfg.url then (false, sid, calls)
    else
      match post1 with
      | .ok200 => (true, sid, calls ++ [.pause])
      | .okBad => (false, sid, calls ++ [.pause])
      | .errNet => (false, sid, calls ++ [.pause])
      | .err403 =>
        let r := login cfg loginOut2 []
        if r.1 then
          match post2 with
          | .ok200 => (true, r.2.1, calls ++ [.pause] ++ r.2.2 ++ [.pause])
          | _ => (false, r.2.1, calls ++ [.pause] ++ r.2.2 ++ [.pause])
        else (false, r.2.1, calls ++ [.pause] ++ r.2.2)

/-- `qbitDeleteTorrents` (qbittorrent.ts:587-645): lazy login (tested by
re-reading `sid`, not the login result), URL guard, one delete POST with
no 403 retry (any error returns `false`). -/
def qbitDeleteTorrents (cfg : QbitConfig) (loginOut1 : Option JStr)
    (post1 : PostR) (sid : JStr) : Bool × JStr × List NetCall :=
  if !truthyStr sid then
    let r := login cfg loginOut1 sid
    if !truthyStr r.2.1 then (false, r.2.1, r.2.2)
    else qbitDeleteTorrentsPost cfg post1 r.2.1 r.2.2
  else qbitDeleteTorrentsPost cfg post1 sid []
where
  /-- Lines 596-644. -/
  qbitDeleteTorrentsPost (cfg : QbitConfig) (post1 : PostR) (sid : JStr)
      (calls : List NetCall) : Bool × JStr × List NetCall :=
    if !truthyOptStr cfg.url then (false, sid, calls)
    else
      match post1 with
      | .ok200 => (true, sid, calls ++ [.del])
      | _ => (false, sid, calls ++ [.del])

/-- JS `String.prototype.trim` (ASCII whitespace). -/
def trimS (s : JStr) : JStr :=
  ((s.dropWhile isSpaceCode).reverse.dropWhile isSpaceCode).reverse

/-- Outcome of a POST to `/api/v2/torrents/add`:  a 200 response carrying a
string body, a 403, another error response, or a network error with no
response. -/
inductive AddPostR where
  | okText (body : JStr)
  | err403
  | errResp
  | errNet
deriving DecidableEq, Repr

/-- The oracles a nested `getTorrents` call consumes. -/
structure GtOracles where
  loginOut1 : Option JStr
  loginOut2 : Option JStr
  fetch1 : FetchR
  fetch2 : FetchR
deriving DecidableEq, Repr

/-- Run `getTorrents` on a bundle of oracles. -/
def runGetTorrents (cfg : QbitConfig) (o : GtOracles) (sid : JStr) :
    GetTorrentsResult × JStr × List NetCall :=
  getTorrents cfg o.loginOut1 o.loginOut2 o.fetch1 o.fetch2 sid

/-- Result of `addTorrentByMagnet`. -/
structure AddResult where
  success : Bool
  error : Option JStr
  torrent : Option TorrentInfo
deriving DecidableEq, Repr

/-- The newest-torrent identification after a successful add
(qbittorrent.ts:496-518): fetch the list and pick the entry with the
largest `added_on` (JS `reduce` keeps the current element on ties), and
attach it only when it was added within the last 10 seconds. -/
def addIdentifyNewest (now : Int) (g : GetTorrentsResult) (sid : JStr)
    (calls : List NetCall) : AddResult × JStr × List NetCall :=
  match g.torrents with
  | some (t0 :: rest) =>
    let newest := rest.foldl
      (fun latest current =>
        if latest.added_on > current.added_on then latest else current) t0
    if now - newest.added_on < 10 then
      ({ success := true, error := none, torrent := some newest }, sid, calls)
    else ({ success := true, error := none, torrent := none }, sid, calls)
  | _ => ({ success := true, error := none, torrent := none }, sid, calls)

/-- `addTorrentByMagnet` (qbittorrent.ts:455-579).  The source begins with
an unconditional fresh `login()` regardless of the cached session, then
posts the magnet; on 200 `"Ok."` it fetches the torrent list to identify
the new entry; on a 403 it clears the session, re-logs-in and retries the
post exactly once (accepting a case-insensitive `"ok."`).  Error message
texts are abbreviated; their presence and placement follow the source. -/
def addTorrentByMagnet (cfg : QbitConfig) (loginOut1 : Option JStr)
    (addPost1 : AddPostR) (now : Int) (gt1 : GtOracles)
    (loginOut2 : Option JStr) (addPost2 : AddPostR) (gt2 : GtOracles)
    (sid : JStr) : AddResult × JStr × List NetCall :=
  let r := login cfg loginOut1 sid
  if !r.1 then
    ({ success := false,
       error := some (str "Failed to login to qBittorrent before adding torrent."),
       torrent := none }, r.2.1, r.2.2)
  else if !truthyOptStr cfg.url then
    ({ success := false, error := some (str "qBittorrent URL not configured."),
       torrent := none }, r.2.1, r.2.2)
  else
    let sid1 := r.2.1
    let calls := r.2.2
    match addPost1 with
    | .okText body =>
      if truthyStr body && trimS body == str "Ok." then
        let g := runGetTorrents cfg gt1 sid1
        addIdentifyNewest now g.1 g.2.1 (calls ++ [.addPost] ++ g.2.2)
      else if truthyStr body && trimS body == str "Fails." then
        ({ success := false,
           error := some (str "qBittorrent reported Fails."),
           torrent := none }, sid1, calls ++ [.addPost])
      else
        ({ success := false, error := some (str "Failed to add torrent."),
           torrent := none }, sid1, calls ++ [.addPost])
    | .errResp =>
      ({ success := false, error := some (str "Error adding torrent: status"),
         torrent := none }, sid1, calls ++ [.addPost])
    | .errNet =>
      ({ success := false, error := some (str "Error adding torrent"),
         torrent := none }, sid1, calls ++ [.addPost])
    | .err403 =>
      let r2 := login cfg loginOut2 []
      if r2.1 && truthyOptStr cfg.url then
        match addPost2 with
        | .okText body2 =>
          if truthyStr body2 && toLowerS (trimS body2) == str "ok." then
            let g := runGetTorrents cfg gt2 r2.2.1
            addIdentifyNewest now g.1 g.2.1
              (calls ++ [.addPost] ++ r2.2.2 ++ [.addPost] ++ g.2.2)
          else
            ({ success := false,
               error := some (str "Failed to add torrent after re-login."),
               torrent := none }, r2.2.1,
              calls ++ [.addPost] ++ r2.2.2 ++ [.addPost])
        | _ =>
          ({ success := false,
             error := some (str "Error adding torrent after re-login"),
             torrent := none }, r2.2.1,
            calls ++ [.addPost] ++ r2.2.2 ++ [.addPost])
      else
        ({ success := false,
           error := some (str "Failed to re-login to qBittorrent after session expiry while adding torrent."),
           torrent := none }, r2.2.1, calls ++ [.addPost] ++ r2.2.2)

/-! ### The progress projector
(`updateTrackedTorrents` in src/discordClient.ts:900-951, identical in
src/bot/handlers/messageHandler.ts:668-720): the per-handle body of the
poll loop.  `fetched` is the `qbitGetTorrentByHash` result for the handle's
hash, `editOk` whether the Discord `message.edit` call succeeds; `pushed`
records that an edit (an external push) was attempted.  The governor map is
threaded because the completed branch calls `markTorrentCompleted`. -/

/-- An entry of `activeTorrentMessages`. -/
structure TrackedTorrentInfo where
  lastProgress : Rat
  isCompleted : Bool
  addedOn : Int
  torrentName : JStr
deriving DecidableEq, Repr

/-- Outcome of one handle's poll iteration: the handle's new state (`none`
= deleted from `activeTorrentMessages`), whether a push was attempted, and
the governor map. -/
structure HandleStepResult where
  handle : Option TrackedTorrentInfo
  pushed : Bool
  timings : TimingMap
deriving DecidableEq, Repr

/-- The terminal-state test of the poll body (discordClient.ts:924):
`state.toLowerCase().includes('error') || ...includes('stalled')`. -/
def isErrorOrStalled (state : JStr) : Bool :=
  containsSub (str "error") (toLowerS state)
    || containsSub (str "stalled") (toLowerS state)

/-- One iteration of the `updateTrackedTorrents` loop for a single handle.
Completed handles are skipped (`continue`); a missing torrent pushes a
terminal message and deletes the handle; a completed torrent marks
completion with the governor, pushes, and deletes the handle; an
errored/stalled torrent pushes and deletes the handle; otherwise the
progress edit is pushed unconditionally and `lastProgress` is updated,
the handle being deleted only if the edit itself fails. -/
def updateTrackedStep (mult now : Int) (m : TimingMap)
    (tr : TrackedTorrentInfo) (fetched : Option TorrentInfo)
    (editOk : Bool) : HandleStepResult :=
  if tr.isCompleted then { handle := some tr, pushed := false, timings := m }
  else
    match fetched with
    | none => { handle := none, pushed := true, timings := m }
    | some t =>
      if decide ((1 : Rat) ≤ t.progress) then
        { handle := none, pushed := true,
          timings := markTorrentCompleted mult now t m }
      else if isErrorOrStalled t.state then
        { handle := none, pushed := true, timings := m }
      else if editOk then
        { handle := some { tr with lastProgress := t.progress },
          pushed := true, timings := m }
      else { handle := none, pushed := true, timings := m }

/-! ### Preservation lemmas for the governor's operations -/

theorem mem_mset {m : TimingMap} {k : JStr} {v : TorrentTimingInfo}
    {p : JStr × TorrentTimingInfo} (h : p ∈ mset m k v) :
    p ∈ m ∨ p = (k, v) := by
  induction m with
  | nil =>
    simp only [mset, List.mem_singleton] at h
    exact Or.inr h
  | cons q rest ih =>
    by_cases hq : q.1 = k
    · simp only [mset, hq, if_true, List.mem_cons] at h
      rcases h with h1 | h2
      · exact Or.inr h1
      · exact Or.inl (List.mem_cons_of_mem _ h2)
    · simp only [mset, hq, if_false, List.mem_cons] at h
      rcases h with h1 | h2
      · exact Or.inl (h1 ▸ List.mem_cons_self _ _)
      · rcases ih h2 with h3 | h4
        · exact Or.inl (List.mem_cons_of_mem _ h3)
        · exact Or.inr h4

theorem recOK_markCompletedExisting {mult : Int} (now : Int)
    {tr : TorrentTimingInfo} (h : recOK mult tr = true) :
    recOK mult (markCompletedExisting mult now tr) = true := by
  unfold markCompletedExisting
  by_cases ht : truthyOptInt tr.downloadCompletionTime
  · simpa [ht] using h
  · simp only [ht, if_false, recOK]
    simp

theorem recOK_setStopped (mult : Int) (tr : TorrentTimingInfo) (b : Bool) :
    recOK mult { tr with stopped := b } = recOK mult tr := rfl

theorem recOK_fresh (mult : Int) (t : TorrentInfo) :
    recOK mult
      { hash := t.hash, name := t.name, downloadStartTime := t.added_on
        downloadCompletionTime := none, downloadDuration := none
        seedingStopTime := none, stopped := false } = true := rfl

theorem mapOK_track {mult : Int} {m : TimingMap} (t : TorrentInfo)
    (h : ∀ p ∈ m, recOK mult p.2 = true) :
    ∀ p ∈ trackTorrentForSeeding t m, recOK mult p.2 = true := by
  intro p hp
  unfold trackTorrentForSeeding at hp
  by_cases hs : (mfind m t.hash).isSome
  · exact h p (by simpa [hs] using hp)
  · simp only [hs, if_false] at hp
    rcases mem_mset hp with h1 | h2
    · exact h p h1
    · rw [h2]
      exact recOK_fresh mult t

theorem mapOK_mark {mult : Int} {m : TimingMap} (now : Int) (t : TorrentInfo)
    (h : ∀ p ∈ m, recOK mult p.2 = true) :
    ∀ p ∈ markTorrentCompleted mult now t m, recOK mult p.2 = true := by
  intro p hp
  unfold markTorrentCompleted at hp
  cases hf : mfind m t.hash with
  | some tr =>
    rw [hf] at hp
    rcases mem_mset hp with h1 | h2
    · exact h p h1
    · rw [h2]
      exact recOK_markCompletedExisting now (h _ (mem_of_mfind hf))
  | none =>
    rw [hf] at hp
    dsimp only at hp
    have htrack := @mapOK_track mult m t h
    cases hf1 : mfind (trackTorrentForSeeding t m) t.hash with
    | some tr =>
      rw [hf1] at hp
      rcases mem_mset hp with h1 | h2
      · exact htrack p h1
      · rw [h2]
        exact recOK_markCompletedExisting now (htrack _ (mem_of_mfind hf1))
    | none =>
      rw [hf1] at hp
      exact htrack p hp

theorem mapOK_stopMark {mult : Int} {m : TimingMap} (c : JStr → Bool)
    (h : ∀ p ∈ m, recOK mult p.2 = true) :
    ∀ p ∈ m.map (fun p =>
        if c p.1 then (p.1, { p.2 with stopped := true }) else p),
      recOK mult p.2 = true := by
  intro p hp
  rcases List.mem_map.mp hp with ⟨q, hq, hpq⟩
  by_cases hc : c q.1
  · rw [← hpq]
    simp only [hc, if_true]
    rw [recOK_setStopped]
    exact h q hq
  · rw [← hpq]
    simp only [hc, if_false]
    exact h q hq

theorem mapOK_sweep {mult : Int} {m : TimingMap} (now : Int) (pauseOk : Bool)
    (h : ∀ p ∈ m, recOK mult p.2 = true) :
    ∀ p ∈ (checkAndStopOverseededTorrents now pauseOk m).map,
      recOK mult p.2 = true := by
  unfold checkAndStopOverseededTorrents
  by_cases he : (sweepBatch now m).isEmpty
  · simpa [he] using h
  · by_cases hk : pauseOk
    · simp only [he, hk, if_false, if_true]
      exact mapOK_stopMark _ h
    · simpa [he, hk] using h

theorem mapOK_updateStep {mult : Int} {m : TimingMap} (now : Int)
    (t : TorrentInfo) (h : ∀ p ∈ m, recOK mult p.2 = true) :
    ∀ p ∈ updateStep mult now m t, recOK mult p.2 = true := by
  unfold updateStep
  cases hf : mfind m t.hash with
  | none =>
    by_cases hprog : decide (t.progress < 1)
    · simpa [hprog] using @mapOK_track mult m t h
    · simpa [hprog] using h
  | some tr =>
    by_cases hc : !truthyOptInt tr.downloadCompletionTime
        && decide (1 ≤ t.progress)
    · simpa [hc] using mapOK_mark now t h
    · simpa [hc] using h

theorem mapOK_reconcile {mult : Int} (now : Int) (ts : List TorrentInfo) :
    ∀ {m : TimingMap}, (∀ p ∈ m, recOK mult p.2 = true) →
    ∀ p ∈ updateTorrentCompletionStatus mult now ts m, recOK mult p.2 = true := by
  induction ts with
  | nil =>
    intro m h
    simpa [updateTorrentCompletionStatus] using h
  | cons t rest ih =>
    intro m h
    have h1 := @mapOK_updateStep mult m now t h
    simpa [updateTorrentCompletionStatus] using ih h1

theorem mapOK_applyGovOp {mult : Int} {m : TimingMap} (op : GovOp)
    (h : ∀ p ∈ m, recOK mult p.2 = true) :
    ∀ p ∈ (applyGovOp mult m op).1, recOK mult p.2 = true := by
  cases op with
  | track t => exact mapOK_track t h
  | mark now t => exact mapOK_mark now t h
  | sweep now pauseOk => exact mapOK_sweep now pauseOk h
  | reconcile now ts => exact mapOK_reconcile now ts h
  | manual hashes pauseOk =>
    unfold applyGovOp manuallyStopSeeding
    by_cases he : hashes.isEmpty
    · simpa [he] using h
    · by_cases hk : pauseOk
      · simp only [he, hk, if_false, if_true]
        exact mapOK_stopMark _ h
      · simpa [he, hk] using h
  | remove hsh =>
    intro p hp
    exact h p (List.mem_of_mem_filter hp)

/-! ### Concrete fixtures used by witnesses and counterexamples -/

/-- A torrent snapshot still downloading (progress 0). -/
def wTorrent : TorrentInfo :=
  { hash := str "h1", name := str "n1", added_on := 1000, progress := 0,
    state := str "downloading" }

/-- The record `markTorrentCompleted 10 2800 wTorrent` produces: duration
1800 s, multiplier 10, stop time 2800 + 18000. -/
def wRecDone : TorrentTimingInfo :=
  { hash := str "h1", name := str "n1", downloadStartTime := 1000,
    downloadCompletionTime := some 2800, downloadDuration := some 1800,
    seedingStopTime := some 20800, stopped := false }

/-- A map reached by tracking and then completing `wTorrent`. -/
def wMapC1 : TimingMap :=
  (applyGovOp 10 (applyGovOp 10 [] (GovOp.track wTorrent)).1
    (GovOp.mark 2800 wTorrent)).1

/-- C1: in every reachable `torrentTimings` state, every record's three
completion fields are all unset or all set, and when set they satisfy
`seedingStopTime = downloadCompletionTime + downloadDuration * mult`
exactly (both facts are the Boolean check `recOK`). -/
theorem C1_completion_invariant (mult : Int) (m : TimingMap)
    (h : Reachable mult m) : ∀ p ∈ m, recOK mult p.2 = true := by
  induction h with
  | init => intro p hp; simp at hp
  | step m' op h' ih => exact mapOK_applyGovOp op ih

/-- Witness for C1 at a concrete reachable state: track `wTorrent`, then
complete it at time 2800 with multiplier 10. -/
theorem C1_completion_invariant_witness : recOK 10 wRecDone = true :=
  C1_completion_invariant 10 wMapC1
    (Reachable.step _ (GovOp.mark 2800 wTorrent)
      (Reachable.step _ (GovOp.track wTorrent) Reachable.init))
    (str "h1", wRecDone) (by decide)

/-! ### The sweep's batch (claims C2 and C3) -/

/-- With distinct keys, membership in the sweep's collected batch is
exactly "the record found for that hash is due". -/
theorem mem_sweepBatch {now : Int} {m : TimingMap} {i : JStr}
    (hnd : NodupKeys m) :
    i ∈ sweepBatch now m ↔ ∃ tr, mfind m i = some tr ∧ dueForStop now tr = true := by
  unfold sweepBatch
  constructor
  · intro h
    rcases List.mem_map.mp h with ⟨p, hp, hpi⟩
    have hmem := List.mem_of_mem_filter hp
    have hdue := List.of_mem_filter hp
    refine ⟨p.2, ?_, by simpa using hdue⟩
    rw [← hpi]
    exact mfind_of_mem_nodup hnd (by simpa using hmem)
  · rintro ⟨tr, hf, hdue⟩
    apply List.mem_map.mpr
    refine ⟨(i, tr), ?_, rfl⟩
    exact List.mem_filter.mpr ⟨mem_of_mfind hf, by simpa using hdue⟩

/-- For a record whose stop time is not the (falsy) value 0, the sweep's
per-record test is: not stopped, stop time set, stop time elapsed. -/
theorem dueForStop_iff {now : Int} {tr : TorrentTimingInfo}
    (hnz : tr.seedingStopTime ≠ some 0) :
    dueForStop now tr = true ↔
      tr.stopped = false ∧ ∃ st, tr.seedingStopTime = some st ∧ st ≤ now := by
  unfold dueForStop
  cases hstop : tr.stopped with
  | true => simp
  | false =>
    cases hst : tr.seedingStopTime with
    | none => simp [truthyOptInt]
    | some st =>
      have hne : st ≠ 0 := fun h => hnz (by rw [hst, h])
      simp [truthyOptInt, hne]

theorem list_isEmpty_false_of_mem {α : Type} {l : List α} {x : α}
    (h : x ∈ l) : l.isEmpty = false := by
  cases l with
  | nil => simp at h
  | cons a t => rfl

/-- Unfolding of the sweep when nothing is due. -/
theorem checkAndStop_empty (now : Int) (pauseOk : Bool) (m : TimingMap)
    (he : (sweepBatch now m).isEmpty = true) :
    checkAndStopOverseededTorrents now pauseOk m = { map := m, pauseCalls := [] } := by
  simp only [checkAndStopOverseededTorrents]
  rw [he]
  rfl

/-- Unfolding of the sweep when the batch is nonempty and the pause
succeeds. -/
theorem checkAndStop_cons_ok (now : Int) (m : TimingMap)
    (hie : (sweepBatch now m).isEmpty = false) :
    checkAndStopOverseededTorrents now true m =
      { map := m.map (fun p =>
          if (sweepBatch now m).contains p.1 then (p.1, { p.2 with stopped := true })
          else p)
        pauseCalls := [sweepBatch now m] } := by
  simp only [checkAndStopOverseededTorrents]
  rw [hie]
  rfl

/-- Unfolding of the sweep when the batch is nonempty and the pause
fails. -/
theorem checkAndStop_cons_fail (now : Int) (m : TimingMap)
    (hie : (sweepBatch now m).isEmpty = false) :
    checkAndStopOverseededTorrents now false m =
      { map := m, pauseCalls := [sweepBatch now m] } := by
  simp only [checkAndStopOverseededTorrents]
  rw [hie]
  rfl

/-- Unfolding of `manuallyStopSeeding` on empty input. -/
theorem manualStop_empty (hashes : List JStr) (pauseOk : Bool) (m : TimingMap)
    (he : hashes.isEmpty = true) :
    manuallyStopSeeding hashes pauseOk m = (m, [], false) := by
  simp only [manuallyStopSeeding]
  rw [he]
  rfl

/-- Unfolding of `manuallyStopSeeding` on nonempty input with a successful
pause. -/
theorem manualStop_cons_ok (hashes : List JStr) (m : TimingMap)
    (he : hashes.isEmpty = false) :
    manuallyStopSeeding hashes true m =
      (m.map (fun p =>
          if hashes.contains p.1 then (p.1, { p.2 with stopped := true })
          else p),
        [hashes], true) := by
  simp only [manuallyStopSeeding]
  rw [he]
  rfl

/-- Unfolding of `manuallyStopSeeding` on nonempty input with a failed
pause. -/
theorem manualStop_cons_fail (hashes : List JStr) (m : TimingMap)
    (he : hashes.isEmpty = false) :
    manuallyStopSeeding hashes false m = (m, [hashes], false) := by
  simp only [manuallyStopSeeding]
  rw [he]
  rfl

/-- C2: a sweep collects exactly the non-stopped records whose stop time is
set and elapsed, issues at most one batched pause covering exactly that
batch, and on success marks exactly the batch stopped while on failure it
changes nothing (so the next sweep collects the same batch).  The
hypothesis `hnz` excludes stop times equal to the JS-falsy number 0, which
`markTorrentCompleted` only produces when `Date.now()` itself is the Unix
epoch. -/
theorem C2_sweep_batch_all_or_nothing (now : Int) (pauseOk : Bool)
    (m : TimingMap) (hnd : NodupKeys m)
    (hnz : ∀ p ∈ m, p.2.seedingStopTime ≠ some 0) :
    (∀ i, i ∈ sweepBatch now m ↔
        ∃ tr, mfind m i = some tr ∧ tr.stopped = false ∧
          ∃ st, tr.seedingStopTime = some st ∧ st ≤ now)
    ∧ (checkAndStopOverseededTorrents now pauseOk m).pauseCalls
        = (if (sweepBatch now m).isEmpty then [] else [sweepBatch now m])
    ∧ (pauseOk = true → ∀ i tr, mfind m i = some tr →
        mfind (checkAndStopOverseededTorrents now true m).map i
          = some (if (sweepBatch now m).contains i then { tr with stopped := true }
              else tr))
    ∧ (pauseOk = false → (checkAndStopOverseededTorrents now false m).map = m) := by
  refine ⟨?_, ?_, ?_, ?_⟩
  · intro i
    rw [mem_sweepBatch hnd]
    constructor
    · rintro ⟨tr, hf, hdue⟩
      have := (dueForStop_iff (hnz _ (mem_of_mfind hf))).mp hdue
      exact ⟨tr, hf, this.1, this.2⟩
    · rintro ⟨tr, hf, hstop, hst⟩
      exact ⟨tr, hf, (dueForStop_iff (hnz _ (mem_of_mfind hf))).mpr ⟨hstop, hst⟩⟩
  · cases he : (sweepBatch now m).isEmpty with
    | true => rw [checkAndStop_empty now pauseOk m he]; rfl
    | false =>
      cases pauseOk with
      | true => rw [checkAndStop_cons_ok now m he]; rfl
      | false => rw [checkAndStop_cons_fail now m he]; rfl
  · intro _ i tr hf
    cases he : (sweepBatch now m).isEmpty with
    | true =>
      rw [checkAndStop_empty now true m he]
      have hc : (sweepBatch now m).contains i = false := by
        cases hb : sweepBatch now m with
        | nil => rfl
        | cons a l => rw [hb] at he; simp at he
      rw [hc, hf]
      rfl
    | false =>
      rw [checkAndStop_cons_ok now m he]
      show mfind (m.map (fun p =>
          if (sweepBatch now m).contains p.1 then (p.1, { p.2 with stopped := true })
          else p)) i = _
      rw [mfind_map_entries m i (fun x => (sweepBatch now m).contains x)
        (fun v => { v with stopped := true }), hf]
      rfl
  · intro _
    cases he : (sweepBatch now m).isEmpty with
    | true => rw [checkAndStop_empty now false m he]
    | false => rw [checkAndStop_cons_fail now m he]

/-- A second record, due for stopping at time 100. -/
def wRecDue : TorrentTimingInfo :=
  { hash := str "h2", name := str "n2", downloadStartTime := 0,
    downloadCompletionTime := some 10, downloadDuration := some 10,
    seedingStopTime := some 50, stopped := false }

/-- A two-record map: one already stopped, one due. -/
def wMapC2 : TimingMap :=
  [(str "h1", { wRecDone with stopped := true }), (str "h2", wRecDue)]

/-- Witness for C2 on `wMapC2` at time 100: the pause-call list is the
single batch. -/
theorem C2_sweep_batch_all_or_nothing_witness :
    (checkAndStopOverseededTorrents 100 true wMapC2).pauseCalls
      = (if (sweepBatch 100 wMapC2).isEmpty then [] else [sweepBatch 100 wMapC2]) :=
  (C2_sweep_batch_all_or_nothing 100 true wMapC2 (by unfold NodupKeys; decide)
    (by decide)).2.1

/-! ### Once stopped, never paused by a sweep again (claim C3) -/

theorem contains_false_of_not_mem {l : List JStr} {x : JStr} (h : x ∉ l) :
    l.contains x = false := by
  induction l with
  | nil => rfl
  | cons a t ih =>
    have hxa : ¬(x = a) := fun hh => h (hh ▸ List.mem_cons_self a t)
    have hxt : x ∉ t := fun hh => h (List.mem_cons_of_mem a hh)
    simpa [List.contains, hxa] using ih hxt

/-- The record of a stopped torrent, as the governor sees it. -/
def StoppedOn (m : TimingMap) (i : JStr) : Prop :=
  ∃ tr, mfind m i = some tr ∧ tr.stopped = true

theorem stopped_markCompletedExisting (mult now : Int) (tr : TorrentTimingInfo) :
    (markCompletedExisting mult now tr).stopped = tr.stopped := by
  unfold markCompletedExisting
  by_cases ht : truthyOptInt tr.downloadCompletionTime <;> simp [ht]

theorem mfind_track_other {t : TorrentInfo} {m : TimingMap} {k : JStr}
    (h : k ≠ t.hash) :
    mfind (trackTorrentForSeeding t m) k = mfind m k := by
  unfold trackTorrentForSeeding
  by_cases hs : (mfind m t.hash).isSome
  · simp [hs]
  · simp only [hs, if_false]
    exact mfind_mset_ne m t.hash k _ h

theorem mfind_mark_other {mult now : Int} {t : TorrentInfo} {m : TimingMap}
    {k : JStr} (h : k ≠ t.hash) :
    mfind (markTorrentCompleted mult now t m) k = mfind m k := by
  unfold markTorrentCompleted
  cases hf : mfind m t.hash with
  | some tr => exact mfind_mset_ne m t.hash k _ h
  | none =>
    dsimp only
    cases hf1 : mfind (trackTorrentForSeeding t m) t.hash with
    | some tr =>
      rw [mfind_mset_ne _ t.hash k _ h]
      exact mfind_track_other h
    | none => exact mfind_track_other h

theorem mfind_updateStep_other {mult now : Int} {t : TorrentInfo}
    {m : TimingMap} {k : JStr} (h : k ≠ t.hash) :
    mfind (updateStep mult now m t) k = mfind m k := by
  unfold updateStep
  cases hf : mfind m t.hash with
  | none =>
    by_cases hp : decide (t.progress < 1)
    · simp only [hp, if_true]
      exact mfind_track_other h
    · simp [hp]
  | some tr =>
    by_cases hc : !truthyOptInt tr.downloadCompletionTime
        && decide (1 ≤ t.progress)
    · simp only [hc, if_true]
      exact mfind_mark_other h
    · simp [hc]

theorem mfind_reconcile_other {mult now : Int} {ts : List TorrentInfo}
    {k : JStr} :
    ∀ {m : TimingMap}, k ∉ ts.map TorrentInfo.hash →
    mfind (updateTorrentCompletionStatus mult now ts m) k = mfind m k := by
  induction ts with
  | nil => intro m _; rfl
  | cons t rest ih =>
    intro m hk
    simp only [List.map_cons, List.mem_cons] at hk
    push_neg at hk
    unfold updateTorrentCompletionStatus at ih ⊢
    simp only [List.foldl_cons]
    rw [ih hk.2]
    exact mfind_updateStep_other hk.1

theorem mfind_remove_other {hsh : JStr} {m : TimingMap} {k : JStr}
    (h : k ≠ hsh) : mfind (removeTorrentTracking hsh m) k = mfind m k := by
  induction m with
  | nil => rfl
  | cons p rest ih =>
    unfold removeTorrentTracking at ih ⊢
    rw [List.filter_cons]
    by_cases hp : p.1 = hsh
    · rw [if_neg (by simp [hp])]
      rw [ih]
      have hpk : ¬(p.1 = k) := by rw [hp]; exact fun hh => h hh.symm
      simp [mfind, hpk]
    · rw [if_pos (by simp [hp])]
      by_cases hpk : p.1 = k
      · simp [mfind, hpk]
      · simp only [mfind, hpk, if_false]
        exact ih

theorem stoppedOn_track {m : TimingMap} {i : JStr} (t : TorrentInfo)
    (h : StoppedOn m i) : StoppedOn (trackTorrentForSeeding t m) i := by
  rcases h with ⟨tr, hf, hs⟩
  by_cases he : i = t.hash
  · subst he
    unfold trackTorrentForSeeding
    rw [hf]
    exact ⟨tr, hf, hs⟩
  · exact ⟨tr, by rw [mfind_track_other he]; exact hf, hs⟩

theorem stoppedOn_mark {mult now : Int} {m : TimingMap} {i : JStr}
    (t : TorrentInfo) (h : StoppedOn m i) :
    StoppedOn (markTorrentCompleted mult now t m) i := by
  rcases h with ⟨tr, hf, hs⟩
  by_cases he : i = t.hash
  · subst he
    unfold markTorrentCompleted
    rw [hf]
    refine ⟨markCompletedExisting mult now tr, mfind_mset_self m t.hash _, ?_⟩
    rw [stopped_markCompletedExisting]
    exact hs
  · exact ⟨tr, by rw [mfind_mark_other he]; exact hf, hs⟩

theorem stoppedOn_updateStep {mult now : Int} {m : TimingMap} {i : JStr}
    (t : TorrentInfo) (h : StoppedOn m i) :
    StoppedOn (updateStep mult now m t) i := by
  unfold updateStep
  cases hf : mfind m t.hash with
  | none =>
    by_cases hp : decide (t.progress < 1)
    · simp only [hp, if_true]
      exact stoppedOn_track t h
    · simpa [hp] using h
  | some tr =>
    by_cases hc : !truthyOptInt tr.downloadCompletionTime
        && decide (1 ≤ t.progress)
    · simp only [hc, if_true]
      exact stoppedOn_mark t h
    · simpa [hc] using h

theorem stoppedOn_reconcile {mult now : Int} {ts : List TorrentInfo}
    {i : JStr} :
    ∀ {m : TimingMap}, StoppedOn m i →
    StoppedOn (updateTorrentCompletionStatus mult now ts m) i := by
  induction ts with
  | nil => intro m h; exact h
  | cons t rest ih =>
    intro m h
    unfold updateTorrentCompletionStatus at ih ⊢
    simp only [List.foldl_cons]
    exact ih (stoppedOn_updateStep t h)

theorem stoppedOn_stopMark {m : TimingMap} {i : JStr} (c : JStr → Bool)
    (h : StoppedOn m i) :
    StoppedOn (m.map (fun p =>
      if c p.1 then (p.1, { p.2 with stopped := true }) else p)) i := by
  rcases h with ⟨tr, hf, hs⟩
  refine ⟨if c i then { tr with stopped := true } else tr, ?_, ?_⟩
  · rw [mfind_map_entries m i c (fun v => { v with stopped := true }), hf]
    rfl
  · by_cases hc : c i <;> simp [hc, hs]

theorem sweep_excludes_stopped {now : Int} {m : TimingMap} {i : JStr}
    (hnd : NodupKeys m) (h : StoppedOn m i) : i ∉ sweepBatch now m := by
  rcases h with ⟨tr, hf, hs⟩
  intro hmem
  rcases (mem_sweepBatch hnd).mp hmem with ⟨tr2, hf2, hdue⟩
  rw [hf] at hf2
  cases hf2
  unfold dueForStop at hdue
  rw [hs] at hdue
  simp at hdue

theorem stoppedOn_sweep {now : Int} {pauseOk : Bool} {m : TimingMap}
    {i : JStr} (h : StoppedOn m i) :
    StoppedOn (checkAndStopOverseededTorrents now pauseOk m).map i := by
  cases he : (sweepBatch now m).isEmpty with
  | true => rw [checkAndStop_empty now pauseOk m he]; exact h
  | false =>
    cases pauseOk with
    | true =>
      rw [checkAndStop_cons_ok now m he]
      exact stoppedOn_stopMark _ h
    | false => rw [checkAndStop_cons_fail now m he]; exact h

theorem nodup_track {t : TorrentInfo} {m : TimingMap} (h : NodupKeys m) :
    NodupKeys (trackTorrentForSeeding t m) := by
  unfold trackTorrentForSeeding
  by_cases hs : (mfind m t.hash).isSome
  · simpa [hs] using h
  · simp only [hs, if_false]
    exact nodup_mset h

theorem nodup_mark {mult now : Int} {t : TorrentInfo} {m : TimingMap}
    (h : NodupKeys m) : NodupKeys (markTorrentCompleted mult now t m) := by
  unfold markTorrentCompleted
  cases hf : mfind m t.hash with
  | some tr => exact nodup_mset h
  | none =>
    dsimp only
    cases hf1 : mfind (trackTorrentForSeeding t m) t.hash with
    | some tr => exact nodup_mset (nodup_track h)
    | none => exact nodup_track h

theorem nodup_updateStep {mult now : Int} {t : TorrentInfo} {m : TimingMap}
    (h : NodupKeys m) : NodupKeys (updateStep mult now m t) := by
  unfold updateStep
  cases hf : mfind m t.hash with
  | none =>
    by_cases hp : decide (t.progress < 1)
    · simp only [hp, if_true]
      exact nodup_track h
    · simpa [hp] using h
  | some tr =>
    by_cases hc : !truthyOptInt tr.downloadCompletionTime
        && decide (1 ≤ t.progress)
    · simp only [hc, if_true]
      exact nodup_mark h
    · simpa [hc] using h

theorem nodup_reconcile {mult now : Int} {ts : List TorrentInfo} :
    ∀ {m : TimingMap}, NodupKeys m →
    NodupKeys (updateTorrentCompletionStatus mult now ts m) := by
  induction ts with
  | nil => intro m h; exact h
  | cons t rest ih =>
    intro m h
    unfold updateTorrentCompletionStatus at ih ⊢
    simp only [List.foldl_cons]
    exact ih (nodup_updateStep h)

theorem nodup_applyGovOp {mult : Int} {m : TimingMap} (op : GovOp)
    (h : NodupKeys m) : NodupKeys (applyGovOp mult m op).1 := by
  cases op with
  | track t => exact nodup_track h
  | mark now t => exact nodup_mark h
  | sweep now pauseOk =>
    show NodupKeys (checkAndStopOverseededTorrents now pauseOk m).map
    cases he : (sweepBatch now m).isEmpty with
    | true => rw [checkAndStop_empty now pauseOk m he]; exact h
    | false =>
      cases pauseOk with
      | true =>
        rw [checkAndStop_cons_ok now m he]
        exact nodup_map_entries m (fun x => (sweepBatch now m).contains x)
          (fun v => { v with stopped := true }) h
      | false => rw [checkAndStop_cons_fail now m he]; exact h
  | reconcile now ts => exact nodup_reconcile h
  | manual hashes pauseOk =>
    show NodupKeys (manuallyStopSeeding hashes pauseOk m).1
    cases he : hashes.isEmpty with
    | true => rw [manualStop_empty hashes pauseOk m he]; exact h
    | false =>
      cases pauseOk with
      | true =>
        rw [manualStop_cons_ok hashes m he]
        exact nodup_map_entries m (fun x => hashes.contains x)
          (fun v => { v with stopped := true }) h
      | false => rw [manualStop_cons_fail hashes m he]; exact h
  | remove hsh => exact nodup_filter _ h

theorem stoppedOn_applyGovOp {mult : Int} {m : TimingMap} {i : JStr}
    (op : GovOp) (hnd : NodupKeys m) (h : StoppedOn m i)
    (hop : op ≠ GovOp.remove i) :
    StoppedOn (applyGovOp mult m op).1 i
      ∧ ∀ b ∈ (applyGovOp mult m op).2, i ∉ b := by
  cases op with
  | track t =>
    exact ⟨stoppedOn_track t h, by intro b hb; simp [applyGovOp] at hb⟩
  | mark now t =>
    exact ⟨stoppedOn_mark t h, by intro b hb; simp [applyGovOp] at hb⟩
  | sweep now pauseOk =>
    refine ⟨stoppedOn_sweep h, ?_⟩
    intro b hb
    have hpc : b ∈ (checkAndStopOverseededTorrents now pauseOk m).pauseCalls := hb
    cases he : (sweepBatch now m).isEmpty with
    | true =>
      rw [checkAndStop_empty now pauseOk m he] at hpc
      simp at hpc
    | false =>
      have hbatch : b = sweepBatch now m := by
        cases pauseOk with
        | true =>
          rw [checkAndStop_cons_ok now m he] at hpc
          simpa using hpc
        | false =>
          rw [checkAndStop_cons_fail now m he] at hpc
          simpa using hpc
      rw [hbatch]
      exact sweep_excludes_stopped hnd h
  | reconcile now ts =>
    exact ⟨stoppedOn_reconcile h, by intro b hb; simp [applyGovOp] at hb⟩
  | manual hashes pauseOk =>
    refine ⟨?_, by intro b hb; simp [applyGovOp] at hb⟩
    show StoppedOn (manuallyStopSeeding hashes pauseOk m).1 i
    cases he : hashes.isEmpty with
    | true => rw [manualStop_empty hashes pauseOk m he]; exact h
    | false =>
      cases pauseOk with
      | true =>
        rw [manualStop_cons_ok hashes m he]
        exact stoppedOn_stopMark _ h
      | false => rw [manualStop_cons_fail hashes m he]; exact h
  | remove hsh =>
    have hne : i ≠ hsh := by
      intro hh
      exact hop (by rw [hh])
    refine ⟨?_, by intro b hb; simp [applyGovOp] at hb⟩
    rcases h with ⟨tr, hf, hs⟩
    exact ⟨tr, by rw [show (applyGovOp mult m (GovOp.remove hsh)).1
      = removeTorrentTracking hsh m from rfl, mfind_remove_other hne]; exact hf, hs⟩

/-- Over a whole operation sequence that never removes id `i`'s record: a
stopped record stays stopped and no sweep-issued pause batch ever contains
`i`. -/
theorem runGov_excludes_stopped {mult : Int} {i : JStr} :
    ∀ (ops : List GovOp) {m : TimingMap}, NodupKeys m → StoppedOn m i →
    (∀ op ∈ ops, op ≠ GovOp.remove i) →
    ∀ b ∈ (runGov mult m ops).2, i ∉ b := by
  intro ops
  induction ops with
  | nil =>
    intro m _ _ _ b hb
    simp [runGov] at hb
  | cons op rest ih =>
    intro m hnd h hops b hb
    have hop : op ≠ GovOp.remove i := hops op (List.mem_cons_self op rest)
    have hstep := @stoppedOn_applyGovOp mult m i op hnd h hop
    have hnd1 := @nodup_applyGovOp mult m op hnd
    simp only [runGov, List.mem_append] at hb
    rcases hb with hb1 | hb2
    · exact hstep.2 b hb1
    · exact ih hnd1 hstep.1
        (fun o ho => hops o (List.mem_cons_of_mem op ho)) b hb2

/-- C3: (first conjunct) once a tracking record carries `stopped = true`,
no pause batch issued by any subsequent sweep contains its id, along any
sequence of governor operations that does not delete the record; (second
conjunct) a sweep strictly before a record's (set, nonzero) stop time takes
no action on the record — the record is unchanged and its id is in no
issued pause batch — while a sweep at or after that time includes the id
in the single issued pause batch. -/
theorem C3_stopped_never_swept_again :
    (∀ (mult : Int) (m : TimingMap) (i : JStr) (ops : List GovOp),
        NodupKeys m → StoppedOn m i →
        (∀ op ∈ ops, op ≠ GovOp.remove i) →
        ∀ b ∈ (runGov mult m ops).2, i ∉ b)
    ∧ (∀ (now : Int) (pauseOk : Bool) (m : TimingMap) (i : JStr)
          (tr : TorrentTimingInfo) (st : Int),
        NodupKeys m → mfind m i = some tr → tr.stopped = false →
        tr.seedingStopTime = some st → st ≠ 0 →
        (now < st →
            mfind (checkAndStopOverseededTorrents now pauseOk m).map i = some tr
            ∧ ∀ b ∈ (checkAndStopOverseededTorrents now pauseOk m).pauseCalls,
                i ∉ b)
        ∧ (st ≤ now →
            (checkAndStopOverseededTorrents now pauseOk m).pauseCalls
                = [sweepBatch now m]
            ∧ i ∈ sweepBatch now m)) := by
  constructor
  · intro mult m i ops hnd h hops
    exact runGov_excludes_stopped ops hnd h hops
  · intro now pauseOk m i tr st hnd hf hstop hst hstnz
    constructor
    · intro hbefore
      have hni : i ∉ sweepBatch now m := by
        intro hmem
        rcases (mem_sweepBatch hnd).mp hmem with ⟨tr2, hf2, hdue⟩
        rw [hf] at hf2
        cases hf2
        rcases (dueForStop_iff (by rw [hst]; intro hh; cases hh; exact hstnz rfl)).mp
          hdue with ⟨_, st2, hst2, hle⟩
        rw [hst] at hst2
        cases hst2
        omega
      constructor
      · cases he : (sweepBatch now m).isEmpty with
        | true => rw [checkAndStop_empty now pauseOk m he]; exact hf
        | false =>
          cases pauseOk with
          | true =>
            rw [checkAndStop_cons_ok now m he]
            show mfind (m.map (fun p =>
                if (sweepBatch now m).contains p.1 then
                  (p.1, { p.2 with stopped := true })
                else p)) i = some tr
            rw [mfind_map_entries m i (fun x => (sweepBatch now m).contains x)
              (fun v => { v with stopped := true }), hf,
              contains_false_of_not_mem hni]
            rfl
          | false => rw [checkAndStop_cons_fail now m he]; exact hf
      · intro b hb
        cases he : (sweepBatch now m).isEmpty with
        | true =>
          rw [checkAndStop_empty now pauseOk m he] at hb
          simp at hb
        | false =>
          have hbatch : b = sweepBatch now m := by
            cases pauseOk with
            | true =>
              rw [checkAndStop_cons_ok now m he] at hb
              simpa using hb
            | false =>
              rw [checkAndStop_cons_fail now m he] at hb
              simpa using hb
          rw [hbatch]
          exact hni
    · intro hafter
      have hmem : i ∈ sweepBatch now m := by
        apply (mem_sweepBatch hnd).mpr
        refine ⟨tr, hf, ?_⟩
        apply (dueForStop_iff (by rw [hst]; intro hh; cases hh; exact hstnz rfl)).mpr
        exact ⟨hstop, st, hst, hafter⟩
      have he : (sweepBatch now m).isEmpty = false :=
        list_isEmpty_false_of_mem hmem
      refine ⟨?_, hmem⟩
      cases pauseOk with
      | true => rw [checkAndStop_cons_ok now m he]
      | false => rw [checkAndStop_cons_fail now m he]

/-- Witness for C3: on `wMapC2` (record `h1` stopped, record `h2` due) a
sweep at time 100 issues the single batch `[h2]`, which excludes the
stopped id `h1`. -/
theorem C3_stopped_never_swept_again_witness : str "h1" ∉ [str "h2"] :=
  C3_stopped_never_swept_again.1 10 wMapC2 (str "h1") [GovOp.sweep 100 true]
    (by unfold NodupKeys; decide)
    ⟨{ wRecDone with stopped := true }, by decide, rfl⟩
    (by decide) [str "h2"] (by decide)

/-! ### `markTorrentCompleted` characterization (claim C6) -/

theorem markCompletedExisting_truthy {mult now : Int} {tr : TorrentTimingInfo}
    (ht : truthyOptInt tr.downloadCompletionTime = true) :
    markCompletedExisting mult now tr = tr := by
  unfold markCompletedExisting
  rw [ht]
  rfl

theorem markCompletedExisting_untruthy {mult now : Int} {tr : TorrentTimingInfo}
    (ht : truthyOptInt tr.downloadCompletionTime = false) :
    markCompletedExisting mult now tr =
      { tr with
        downloadCompletionTime := some now
        downloadDuration := some (now - tr.downloadStartTime)
        seedingStopTime := some (now + (now - tr.downloadStartTime) * mult) } := by
  unfold markCompletedExisting
  rw [ht]
  rfl

theorem mfind_track_self {t : TorrentInfo} {m : TimingMap}
    (hf : mfind m t.hash = none) :
    mfind (trackTorrentForSeeding t m) t.hash = some
      { hash := t.hash, name := t.name, downloadStartTime := t.added_on,
        downloadCompletionTime := none, downloadDuration := none,
        seedingStopTime := none, stopped := false } := by
  unfold trackTorrentForSeeding
  rw [hf]
  exact mfind_mset_self m t.hash _

/-- C6 (corrected): `markTorrentCompleted` never consults the snapshot's
progress.  If a record exists with a truthy `downloadCompletionTime` the
call is a no-op (the idempotence half of the claim); if a record exists
with completion unset, the call sets all three completion fields from
`now`; and if no record exists, the call does NOT leave the map unchanged —
it first tracks the snapshot and then immediately completes the fresh
record (the progress ≥ 1 guard lives in the caller,
`updateTorrentCompletionStatus`). -/
theorem C6_markCompleted_characterization (mult now : Int) (t : TorrentInfo)
    (m : TimingMap) :
    (∀ tr, mfind m t.hash = some tr →
        truthyOptInt tr.downloadCompletionTime = true →
        markTorrentCompleted mult now t m = m)
    ∧ (∀ tr, mfind m t.hash = some tr →
        truthyOptInt tr.downloadCompletionTime = false →
        markTorrentCompleted mult now t m = mset m t.hash
          { tr with
            downloadCompletionTime := some now
            downloadDuration := some (now - tr.downloadStartTime)
            seedingStopTime := some (now + (now - tr.downloadStartTime) * mult) })
    ∧ (mfind m t.hash = none →
        mfind (markTorrentCompleted mult now t m) t.hash = some
          { hash := t.hash, name := t.name, downloadStartTime := t.added_on,
            downloadCompletionTime := some now,
            downloadDuration := some (now - t.added_on),
            seedingStopTime := some (now + (now - t.added_on) * mult),
            stopped := false }) := by
  refine ⟨?_, ?_, ?_⟩
  · intro tr hf ht
    unfold markTorrentCompleted
    rw [hf]
    dsimp only
    rw [markCompletedExisting_truthy ht]
    exact mset_eq_self hf
  · intro tr hf ht
    unfold markTorrentCompleted
    rw [hf]
    dsimp only
    rw [markCompletedExisting_untruthy ht]
  · intro hf
    unfold markTorrentCompleted
    rw [hf]
    dsimp only
    rw [mfind_track_self hf]
    rw [mfind_mset_self]
    rw [markCompletedExisting_untruthy (by rfl)]

/-- Counterexample to C6 as stated: for an untracked snapshot with
progress 0 (below 1) the call does not leave the map unchanged — it
creates a record with all completion fields set. -/
theorem C6_markCompleted_counterexample :
    wTorrent.progress < 1
    ∧ mfind ([] : TimingMap) wTorrent.hash = none
    ∧ markTorrentCompleted 10 2800 wTorrent [] ≠ []
    ∧ mfind (markTorrentCompleted 10 2800 wTorrent []) wTorrent.hash
        = some wRecDone := by
  refine ⟨by decide, rfl, by decide, by decide⟩

/-- Witness for the amended C6 at the no-record case. -/
theorem C6_markCompleted_characterization_witness :
    mfind (markTorrentCompleted 10 2800 wTorrent []) wTorrent.hash = some
      { hash := wTorrent.hash, name := wTorrent.name,
        downloadStartTime := wTorrent.added_on,
        downloadCompletionTime := some 2800,
        downloadDuration := some (2800 - wTorrent.added_on),
        seedingStopTime := some (2800 + (2800 - wTorrent.added_on) * 10),
        stopped := false } :=
  (C6_markCompleted_characterization 10 2800 wTorrent []).2.2 rfl

/-! ### Reconcile is idempotent under an unchanged job list (claim C7) -/

theorem foldl_fixed {f : TimingMap → TorrentInfo → TimingMap} {m : TimingMap} :
    ∀ {ts : List TorrentInfo}, (∀ t ∈ ts, f m t = m) → ts.foldl f m = m := by
  intro ts
  induction ts with
  | nil => intro _; rfl
  | cons t rest ih =>
    intro h
    rw [List.foldl_cons, h t (List.mem_cons_self t rest)]
    exact ih (fun u hu => h u (List.mem_cons_of_mem t hu))

theorem bool_eq_false {b : Bool} (h : ¬ b = true) : b = false := by
  cases b
  · rfl
  · exact absurd rfl h

theorem markCompletedExisting_idem (mult now : Int) (tr : TorrentTimingInfo) :
    markCompletedExisting mult now (markCompletedExisting mult now tr)
      = markCompletedExisting mult now tr := by
  by_cases ht : truthyOptInt tr.downloadCompletionTime = true
  · rw [markCompletedExisting_truthy ht, markCompletedExisting_truthy ht]
  · have ht' : truthyOptInt tr.downloadCompletionTime = false := bool_eq_false ht
    rw [markCompletedExisting_untruthy ht']
    by_cases hn : now = 0
    · subst hn
      rw [markCompletedExisting_untruthy (by rfl)]
    · rw [markCompletedExisting_truthy (by simp [truthyOptInt, hn])]

/-- C7: `updateTorrentCompletionStatus` (reconcile) is idempotent for an
unchanged fetched job list (with pairwise-distinct hashes, as the remote
reports them): a second immediate run changes nothing, and reconcile's
sweep-facing pause-call trace is empty (it never calls
`qbitPauseTorrents`). -/
theorem C7_reconcile_idempotent (mult now : Int) (ts : List TorrentInfo)
    (m : TimingMap) (hts : (ts.map TorrentInfo.hash).Nodup) :
    updateTorrentCompletionStatus mult now ts
        (updateTorrentCompletionStatus mult now ts m)
      = updateTorrentCompletionStatus mult now ts m
    ∧ (applyGovOp mult m (GovOp.reconcile now ts)).2 = [] := by
  refine ⟨?_, rfl⟩
  set m' := updateTorrentCompletionStatus mult now ts m with hm'
  show ts.foldl (updateStep mult now) m' = m'
  apply foldl_fixed
  intro t ht
  rcases List.append_of_mem ht with ⟨l1, l2, rfl⟩
  have h2 : t.hash ∉ l2.map TorrentInfo.hash := by
    rw [List.map_append, List.map_cons] at hts
    exact (List.nodup_cons.mp (List.Nodup.of_append_right hts)).1
  have hm'find : mfind m' t.hash
      = mfind (updateStep mult now
          (updateTorrentCompletionStatus mult now l1 m) t) t.hash := by
    rw [hm']
    show mfind (updateTorrentCompletionStatus mult now (l1 ++ t :: l2) m) t.hash = _
    unfold updateTorrentCompletionStatus
    rw [List.foldl_append, List.foldl_cons]
    exact mfind_reconcile_other h2
  set mi := updateTorrentCompletionStatus mult now l1 m with hmi
  cases hfi : mfind mi t.hash with
  | none =>
    by_cases hp : decide (t.progress < 1)
    · have hstep : updateStep mult now mi t = trackTorrentForSeeding t mi := by
        unfold updateStep
        rw [hfi]
        simp [hp]
      have hm'f : mfind m' t.hash = some
          { hash := t.hash, name := t.name, downloadStartTime := t.added_on,
            downloadCompletionTime := none, downloadDuration := none,
            seedingStopTime := none, stopped := false } := by
        rw [hm'find, hstep]
        exact mfind_track_self hfi
      have hnle : decide ((1 : Rat) ≤ t.progress) = false :=
        decide_eq_false (not_le.mpr (of_decide_eq_true hp))
      unfold updateStep
      rw [hm'f]
      simp [hnle]
    · have hstep : updateStep mult now mi t = mi := by
        unfold updateStep
        rw [hfi]
        simp [hp]
      have hm'f : mfind m' t.hash = none := by
        rw [hm'find, hstep]
        exact hfi
      unfold updateStep
      rw [hm'f]
      simp [hp]
  | some tri =>
    by_cases hc : !truthyOptInt tri.downloadCompletionTime
        && decide (1 ≤ t.progress)
    · have hstep : updateStep mult now mi t = markTorrentCompleted mult now t mi := by
        unfold updateStep
        rw [hfi]
        simp [hc]
      have hmark : markTorrentCompleted mult now t mi
          = mset mi t.hash (markCompletedExisting mult now tri) := by
        unfold markTorrentCompleted
        rw [hfi]
      have hm'f : mfind m' t.hash
          = some (markCompletedExisting mult now tri) := by
        rw [hm'find, hstep, hmark]
        exact mfind_mset_self mi t.hash _
      unfold updateStep
      rw [hm'f]
      dsimp only
      by_cases ht2 : truthyOptInt
          (markCompletedExisting mult now tri).downloadCompletionTime = true
      · simp [ht2]
      · have ht2' : truthyOptInt
            (markCompletedExisting mult now tri).downloadCompletionTime
              = false := bool_eq_false ht2
        have hple : decide ((1 : Rat) ≤ t.progress) = true := by
          have h := hc
          rw [Bool.and_eq_true] at h
          exact h.2
        have hcond : (!truthyOptInt
              (markCompletedExisting mult now tri).downloadCompletionTime
            && decide (1 ≤ t.progress)) = true := by
          rw [ht2', hple]
          rfl
        rw [if_pos hcond]
        unfold markTorrentCompleted
        rw [hm'f]
        dsimp only
        rw [markCompletedExisting_idem]
        exact mset_eq_self hm'f
    · have hstep : updateStep mult now mi t = mi := by
        unfold updateStep
        rw [hfi]
        simp [hc]
      have hm'f : mfind m' t.hash = some tri := by
        rw [hm'find, hstep]
        exact hfi
      unfold updateStep
      rw [hm'f]
      simp [hc]

/-! ### The configured multiplier (claim C9) -/

/-- Value of a decimal numeral, as the source's `parseInt` accumulates it. -/
def decValue (s : JStr) : Nat :=
  s.foldl (fun acc d => acc * 10 + (d - 48)) 0

/-- Modelled from the spec's words "a configured positive integer": the
string is a nonempty run of decimal digits denoting a positive value.
This is the spec-side notion claim C9 quantifies over; the code-side
behaviour is `seedingMultiplier`. -/
def isPositiveIntegerLiteral (s : JStr) : Bool :=
  !s.isEmpty && s.all isDigitCode && decide (0 < decValue s)

theorem takeWhile_all {p : Nat → Bool} :
    ∀ {s : List Nat}, (∀ x ∈ s, p x = true) → s.takeWhile p = s := by
  intro s
  induction s with
  | nil => intro _; rfl
  | cons a l ih =>
    intro h
    have ha : p a = true := h a (List.mem_cons_self a l)
    simp only [List.takeWhile_cons, ha, if_true]
    rw [ih (fun x hx => h x (List.mem_cons_of_mem a hx))]

theorem dropWhile_cons_of_neg {p : Nat → Bool} {a : Nat} {l : List Nat}
    (h : p a = false) : (a :: l).dropWhile p = a :: l := by
  simp [List.dropWhile, h]

theorem decDigitsValue_all {s : JStr} (hne : s ≠ [])
    (hall : ∀ x ∈ s, isDigitCode x = true) :
    decDigitsValue s = some (decValue s) := by
  unfold decDigitsValue decValue
  rw [takeWhile_all hall]
  cases s with
  | nil => exact absurd rfl hne
  | cons a l => rfl

theorem parseIntBody_digits {s : JStr} (hne : s ≠ [])
    (hall : ∀ x ∈ s, isDigitCode x = true) :
    parseIntBody s = some (decValue s) := by
  cases s with
  | nil => exact absurd rfl hne
  | cons c0 tail =>
    cases tail with
    | nil => exact decDigitsValue_all hne hall
    | cons c1 r2 =>
      have hc1 : isDigitCode c1 = true :=
        hall c1 (List.mem_cons_of_mem c0 (List.mem_cons_self c1 r2))
      have hb : 48 ≤ c1 ∧ c1 ≤ 57 := by
        simpa [isDigitCode, Bool.and_eq_true, decide_eq_true_eq] using hc1
      have h120 : (c1 == 120) = false := by
        rw [beq_eq_false_iff_ne]; omega
      have h88 : (c1 == 88) = false := by
        rw [beq_eq_false_iff_ne]; omega
      unfold parseIntBody
      dsimp only
      rw [h120, h88]
      simp only [Bool.or_self, Bool.and_false, Bool.false_eq_true, if_false]
      exact decDigitsValue_all hne hall

theorem parseIntJS_digits {s : JStr} (hne : s ≠ [])
    (hall : ∀ x ∈ s, isDigitCode x = true) :
    parseIntJS s = some ((decValue s : Nat) : Int) := by
  cases s with
  | nil => exact absurd rfl hne
  | cons d rest =>
    have hdd : isDigitCode d = true := hall d (List.mem_cons_self d rest)
    have hb : 48 ≤ d ∧ d ≤ 57 := by
      simpa [isDigitCode, Bool.and_eq_true, decide_eq_true_eq] using hdd
    have hspace : isSpaceCode d = false := by
      unfold isSpaceCode
      have h32 : (d == 32) = false := by rw [beq_eq_false_iff_ne]; omega
      have h9 : (d == 9) = false := by rw [beq_eq_false_iff_ne]; omega
      have h10 : (d == 10) = false := by rw [beq_eq_false_iff_ne]; omega
      have h13 : (d == 13) = false := by rw [beq_eq_false_iff_ne]; omega
      have h11 : (d == 11) = false := by rw [beq_eq_false_iff_ne]; omega
      have h12 : (d == 12) = false := by rw [beq_eq_false_iff_ne]; omega
      rw [h32, h9, h10, h13, h11, h12]
      rfl
    have h45 : (d == 45) = false := by rw [beq_eq_false_iff_ne]; omega
    have h43 : (d == 43) = false := by rw [beq_eq_false_iff_ne]; omega
    unfold parseIntJS
    rw [dropWhile_cons_of_neg hspace]
    dsimp only
    rw [h45, h43]
    simp only [Bool.false_eq_true, if_false]
    rw [parseIntBody_digits hne hall]
    rfl

/-- C9 (corrected): the multiplier configuration obeys `parseInt`
semantics, not positive-integer-literal semantics.  For every nonempty
configured string: a `NaN` parse or a non-positive parse warns and
substitutes 10; a positive parse is used unchanged, with no warning —
even when the string is not a positive-integer numeral (e.g. `"3.7"`).
In particular (last conjunct) every canonical positive-integer numeral is
used unchanged, which is the half of the original claim that does hold. -/
theorem C9_multiplier_config (s : JStr) :
    (truthyStr s = true → parseIntJS s = none →
        seedingMultiplier (some s) = (10, true))
    ∧ (∀ v : Int, truthyStr s = true → parseIntJS s = some v → v ≤ 0 →
        seedingMultiplier (some s) = (10, true))
    ∧ (∀ v : Int, truthyStr s = true → parseIntJS s = some v → 0 < v →
        seedingMultiplier (some s) = (v, false))
    ∧ (isPositiveIntegerLiteral s = true →
        seedingMultiplier (some s) = ((decValue s : Int), false)) := by
  refine ⟨?_, ?_, ?_, ?_⟩
  · intro htr hp
    unfold seedingMultiplier
    dsimp only
    rw [htr]
    simp only [if_true]
    rw [hp]
  · intro v htr hp hv
    unfold seedingMultiplier
    dsimp only
    rw [htr]
    simp only [if_true]
    rw [hp]
    simp [hv]
  · intro v htr hp hv
    unfold seedingMultiplier
    dsimp only
    rw [htr]
    simp only [if_true]
    rw [hp]
    simp [not_le.mpr hv]
  · intro hlit
    have h3 : s.isEmpty = false ∧ s.all isDigitCode = true ∧ 0 < decValue s := by
      have h := hlit
      unfold isPositiveIntegerLiteral at h
      rw [Bool.and_eq_true, Bool.and_eq_true] at h
      refine ⟨?_, h.1.2, of_decide_eq_true h.2⟩
      have := h.1.1
      cases hh : s.isEmpty
      · rfl
      · rw [hh] at this; exact absurd this (by simp)
    have hne : s ≠ [] := by
      intro hh
      rw [hh] at h3
      simp at h3
    have htr : truthyStr s = true := by
      unfold truthyStr
      rw [h3.1]
      rfl
    have hall : ∀ x ∈ s, isDigitCode x = true := by
      intro x hx
      exact List.all_eq_true.mp h3.2.1 x hx
    have hparse := parseIntJS_digits hne hall
    unfold seedingMultiplier
    dsimp only
    rw [htr]
    simp only [if_true]
    rw [hparse]
    have hpos : (0 : Int) < (decValue s : Int) := by exact_mod_cast h3.2.2
    simp [not_le.mpr hpos]

/-- Counterexample to C9 as stated: the configured value `"3.7"` is not a
positive integer, yet no warning is emitted and the multiplier becomes 3
(the `parseInt` prefix), not the default 10. -/
theorem C9_multiplier_counterexample :
    isPositiveIntegerLiteral (str "3.7") = false
    ∧ seedingMultiplier (some (str "3.7")) = (3, false) := by decide

/-- Witness for C9 at the numeral `"7"`. -/
theorem C9_multiplier_config_witness :
    seedingMultiplier (some (str "7")) = ((decValue (str "7") : Int), false) :=
  (C9_multiplier_config (str "7")).2.2.2 (by decide)

/-! ### The seeding-state filter (claim C10) -/

theorem toLowerCode_not_upper (n : Nat) :
    ¬(65 ≤ toLowerCode n ∧ toLowerCode n ≤ 90) := by
  unfold toLowerCode
  split
  · omega
  · omega

theorem toLowerS_beq_upper_false {s c : JStr}
    (hc : ∃ n, n ∈ c ∧ 65 ≤ n ∧ n ≤ 90) : (toLowerS s == c) = false := by
  rw [beq_eq_false_iff_ne]
  intro h
  rcases hc with ⟨n, hn, hb⟩
  rw [← h] at hn
  rcases List.mem_map.mp hn with ⟨x, _, hx⟩
  exact toLowerCode_not_upper x (hx ▸ hb)

theorem contains_cons_eq (x a : JStr) (l : List JStr) :
    (a :: l).contains x = (x == a || l.contains x) := by
  cases h : x == a
  · have hne : ¬(x = a) := by simpa using h
    simp [List.contains, h, hne]
  · have heq : x = a := by simpa using h
    simp [List.contains, h, heq]

/-- The membership test of `getSeedingTorrents` can only succeed on
`"uploading"`: the four mixed-case entries of `SEEDING_STATES` contain the
uppercase letter `U` (code 85), which a lowercased string never holds. -/
theorem seeding_states_contains (s : JStr) :
    SEEDING_STATES.contains (toLowerS s) = (toLowerS s == str "uploading") := by
  have h2 : (toLowerS s == str "stalledUP") = false :=
    toLowerS_beq_upper_false ⟨85, by decide, by decide⟩
  have h3 : (toLowerS s == str "forcedUP") = false :=
    toLowerS_beq_upper_false ⟨85, by decide, by decide⟩
  have h4 : (toLowerS s == str "queuedUP") = false :=
    toLowerS_beq_upper_false ⟨85, by decide, by decide⟩
  have h5 : (toLowerS s == str "checkingUP") = false :=
    toLowerS_beq_upper_false ⟨85, by decide, by decide⟩
  show ((str "uploading") :: (str "stalledUP") :: (str "forcedUP")
      :: (str "queuedUP") :: (str "checkingUP") :: []).contains (toLowerS s) = _
  rw [contains_cons_eq, contains_cons_eq, contains_cons_eq, contains_cons_eq,
    contains_cons_eq, h2, h3, h4, h5]
  cases hu : toLowerS s == str "uploading" <;> rfl

/-- C10: `getSeedingTorrents` filters with
`SEEDING_STATES.includes(state.toLowerCase())`; since the four
uppercase-containing entries can never match a lowercased string, the
membership test reduces to equality with `"uploading"`, and a successful
fetch yields exactly the torrents whose state lowercases to
`"uploading"`. -/
theorem C10_seeding_filter_lowercase :
    (∀ s : JStr,
        SEEDING_STATES.contains (toLowerS s) = (toLowerS s == str "uploading"))
    ∧ (∀ ts : List TorrentInfo,
        ts.filter (fun t => SEEDING_STATES.contains (toLowerS t.state))
          = ts.filter (fun t => toLowerS t.state == str "uploading"))
    ∧ (∀ (cfg : QbitConfig) (lo1 lo2 : Option JStr) (f2 : FetchR)
          (sid : JStr) (ts : List TorrentInfo),
        truthyStr sid = true → truthyOptStr cfg.url = true →
        (getSeedingTorrents cfg lo1 lo2 (FetchR.ok ts) f2 sid).1
          = { torrents :=
                some (ts.filter (fun t => toLowerS t.state == str "uploading")),
              error := none }) := by
  have hfun : (fun t : TorrentInfo => SEEDING_STATES.contains (toLowerS t.state))
      = (fun t : TorrentInfo => toLowerS t.state == str "uploading") := by
    funext t
    exact seeding_states_contains t.state
  refine ⟨seeding_states_contains, ?_, ?_⟩
  · intro ts
    rw [hfun]
  · intro cfg lo1 lo2 f2 sid ts htr hurl
    have hg : getTorrents cfg lo1 lo2 (FetchR.ok ts) f2 sid
        = ({ torrents := some ts, error := none }, sid, [NetCall.fetch]) := by
      unfold getTorrents
      rw [htr]
      simp only [Bool.not_true, Bool.false_eq_true, if_false]
      unfold getTorrentsFetch
      rw [hurl]
      simp
    unfold getSeedingTorrents
    rw [hg]
    dsimp only
    rw [hfun]
    rfl

/-- A snapshot in the remote state `stalledUP`. -/
def wStalled : TorrentInfo :=
  { wTorrent with hash := str "h3", state := str "stalledUP", progress := 1 }

/-- A snapshot in the remote state `uploading`. -/
def wUploading : TorrentInfo :=
  { wTorrent with hash := str "h4", state := str "uploading", progress := 1 }

/-- A complete configuration for the client fixtures. -/
def wCfg : QbitConfig :=
  { url := some (str "http://qb:8080"), username := some (str "admin"),
    password := some (str "adminadmin") }

/-- Witness for C10: with a cached session and a successful fetch of a
stalled and an uploading torrent, only the uploading one is returned. -/
theorem C10_seeding_filter_lowercase_witness :
    (getSeedingTorrents wCfg none none (FetchR.ok [wStalled, wUploading])
        FetchR.errOther (str "SID=abc")).1
      = { torrents := some ([wStalled, wUploading].filter
            (fun t => toLowerS t.state == str "uploading")),
          error := none } :=
  C10_seeding_filter_lowercase.2.2 wCfg none none FetchR.errOther
    (str "SID=abc") [wStalled, wUploading] (by decide) (by decide)

/-! ### One re-login and one retry on an unauthorized list call (claim C4) -/

theorem login_config_some {cfg : QbitConfig} {s2 : JStr} {sid : JStr}
    (hurl : truthyOptStr cfg.url = true)
    (huser : truthyOptStr cfg.username = true)
    (hpass : truthyOptStr cfg.password = true) :
    login cfg (some s2) sid = (true, s2, [NetCall.auth]) := by
  unfold login
  rw [hurl, huser, hpass]
  rfl

theorem login_config_none {cfg : QbitConfig} {sid : JStr}
    (hurl : truthyOptStr cfg.url = true)
    (huser : truthyOptStr cfg.username = true)
    (hpass : truthyOptStr cfg.password = true) :
    login cfg none sid = (false, sid, [NetCall.auth]) := by
  unfold login
  rw [hurl, huser, hpass]
  rfl

/-- C4: when a list call with a cached session is rejected as unauthorized
(403), `getTorrents` performs exactly one re-authentication and exactly
one retried fetch — the network trace is fetch, auth, fetch — and returns
the retried call's result, having replaced the cached token; if the
re-authentication fails, the trace stops at fetch, auth, the cached token
stays cleared, and an error result is returned with no further retries
(a failing retried fetch also returns an error with no third fetch). -/
theorem C4_list_unauthorized_one_retry (cfg : QbitConfig)
    (lo1 lo2 : Option JStr) (f2 : FetchR) (sid : JStr)
    (hsid : truthyStr sid = true)
    (hurl : truthyOptStr cfg.url = true)
    (huser : truthyOptStr cfg.username = true)
    (hpass : truthyOptStr cfg.password = true) :
    (∀ s2, lo2 = some s2 →
        (getTorrents cfg lo1 lo2 FetchR.err403 f2 sid).2.2
            = [NetCall.fetch, NetCall.auth, NetCall.fetch]
        ∧ (getTorrents cfg lo1 lo2 FetchR.err403 f2 sid).2.1 = s2
        ∧ (∀ ts, f2 = FetchR.ok ts →
            (getTorrents cfg lo1 lo2 FetchR.err403 f2 sid).1
              = { torrents := some ts, error := none })
        ∧ ((f2 = FetchR.err403 ∨ f2 = FetchR.errOther) →
            (getTorrents cfg lo1 lo2 FetchR.err403 f2 sid).1
              = { torrents := none,
                  error := some (str "Error getting torrents after re-login") }))
    ∧ (lo2 = none →
        (getTorrents cfg lo1 lo2 FetchR.err403 f2 sid).2.2
            = [NetCall.fetch, NetCall.auth]
        ∧ (getTorrents cfg lo1 lo2 FetchR.err403 f2 sid).2.1 = []
        ∧ (getTorrents cfg lo1 lo2 FetchR.err403 f2 sid).1
            = { torrents := none,
                error := some
                  (str "Failed to re-login to qBittorrent after session expiry.") }) := by
  have hfetch : getTorrents cfg lo1 lo2 FetchR.err403 f2 sid
      = getTorrentsFetch cfg lo2 FetchR.err403 f2 sid [] := by
    unfold getTorrents
    rw [hsid]
    rfl
  constructor
  · intro s2 hlo
    subst hlo
    have hok : ∀ ts, getTorrentsFetch cfg (some s2) FetchR.err403
          (FetchR.ok ts) sid []
        = ({ torrents := some ts, error := none }, s2,
            [NetCall.fetch, NetCall.auth, NetCall.fetch]) := by
      intro ts
      unfold getTorrentsFetch
      simp only [hurl]
      rw [login_config_some hurl huser hpass]
      simp [hurl]
    have h403 : getTorrentsFetch cfg (some s2) FetchR.err403
          FetchR.err403 sid []
        = ({ torrents := none,
             error := some (str "Error getting torrents after re-login") }, s2,
            [NetCall.fetch, NetCall.auth, NetCall.fetch]) := by
      unfold getTorrentsFetch
      simp only [hurl]
      rw [login_config_some hurl huser hpass]
      simp [hurl]
    have hoth : getTorrentsFetch cfg (some s2) FetchR.err403
          FetchR.errOther sid []
        = ({ torrents := none,
             error := some (str "Error getting torrents after re-login") }, s2,
            [NetCall.fetch, NetCall.auth, NetCall.fetch]) := by
      unfold getTorrentsFetch
      simp only [hurl]
      rw [login_config_some hurl huser hpass]
      simp [hurl]
    refine ⟨?_, ?_, ?_, ?_⟩
    · rw [hfetch]
      cases f2 with
      | ok ts => rw [hok ts]
      | err403 => rw [h403]
      | errOther => rw [hoth]
    · rw [hfetch]
      cases f2 with
      | ok ts => rw [hok ts]
      | err403 => rw [h403]
      | errOther => rw [hoth]
    · intro ts hf2
      subst hf2
      rw [hfetch, hok ts]
    · intro hf2
      rcases hf2 with hf2 | hf2 <;> subst hf2
      · rw [hfetch, h403]
      · rw [hfetch, hoth]
  · intro hlo
    subst hlo
    have hmain : getTorrentsFetch cfg none FetchR.err403 f2 sid []
        = ({ torrents := none,
             error := some
               (str "Failed to re-login to qBittorrent after session expiry.") },
            [], [NetCall.fetch, NetCall.auth]) := by
      unfold getTorrentsFetch
      simp only [hurl]
      rw [login_config_none hurl huser hpass]
      simp [hurl]
    rw [hfetch, hmain]
    exact ⟨rfl, rfl, rfl⟩

/-- Witness for C4: concrete configuration, cached session `SID=old`,
re-login yielding `SID=new`, successful retried fetch. -/
theorem C4_list_unauthorized_one_retry_witness :
    (getTorrents wCfg none (some (str "SID=new")) FetchR.err403
        (FetchR.ok []) (str "SID=old")).2.2
      = [NetCall.fetch, NetCall.auth, NetCall.fetch] :=
  ((C4_list_unauthorized_one_retry wCfg none (some (str "SID=new"))
    (FetchR.ok []) (str "SID=old") (by decide) (by decide) (by decide)
    (by decide)).1 (str "SID=new") rfl).1

/-! ### The poll pushes unconditionally (claim C5) -/

/-- A handle whose last known progress is 0. -/
def wHandle : TrackedTorrentInfo :=
  { lastProgress := 0, isCompleted := false, addedOn := 0,
    torrentName := str "x" }

/-- C5 (corrected): for an open handle whose torrent is fetched with
progress < 1 and a non-terminal state, the poll body attempts the
progress edit (a push) on every pass — with no comparison of the fetched
progress against `lastProgress` — then sets `lastProgress` to the fetched
progress and keeps the handle open when the edit succeeds, deleting the
handle only when the edit itself fails; the governor map is untouched. -/
theorem C5_poll_pushes_unconditionally (mult now : Int) (m : TimingMap)
    (tr : TrackedTorrentInfo) (t : TorrentInfo) (editOk : Bool)
    (hopen : tr.isCompleted = false)
    (hprog : t.progress < 1)
    (hstate : isErrorOrStalled t.state = false) :
    (updateTrackedStep mult now m tr (some t) editOk).pushed = true
    ∧ (editOk = true → (updateTrackedStep mult now m tr (some t) editOk).handle
        = some { tr with lastProgress := t.progress })
    ∧ (editOk = false →
        (updateTrackedStep mult now m tr (some t) editOk).handle = none)
    ∧ (updateTrackedStep mult now m tr (some t) editOk).timings = m := by
  have hnle : decide ((1 : Rat) ≤ t.progress) = false :=
    decide_eq_false (not_le.mpr hprog)
  unfold updateTrackedStep
  rw [hopen]
  simp only [Bool.false_eq_true, if_false]
  rw [hnle, hstate]
  simp only [Bool.false_eq_true, if_false]
  cases editOk <;> exact ⟨rfl, by simp, by simp, rfl⟩

/-- Counterexample to C5 as stated: fetched progress equal to
`lastProgress` (both 0), open handle, progress < 1, non-terminal state —
yet a push is attempted and the handle stays open. -/
theorem C5_poll_counterexample :
    wTorrent.progress = wHandle.lastProgress
    ∧ wHandle.isCompleted = false
    ∧ wTorrent.progress < 1
    ∧ isErrorOrStalled wTorrent.state = false
    ∧ (updateTrackedStep 10 0 [] wHandle (some wTorrent) true).pushed = true
    ∧ (updateTrackedStep 10 0 [] wHandle (some wTorrent) true).handle
        = some wHandle := by decide

/-- Witness for the amended C5 at a concrete handle and snapshot. -/
theorem C5_poll_pushes_unconditionally_witness :
    (updateTrackedStep 10 0 [] wHandle (some wTorrent) true).pushed = true :=
  (C5_poll_pushes_unconditionally 10 0 [] wHandle wTorrent true rfl
    (by decide) (by decide)).1

/-! ### Lazy session reuse, except for the add operation (claim C8) -/

theorem addIdentifyNewest_calls (now : Int) (g : GetTorrentsResult)
    (sid : JStr) (calls : List NetCall) :
    (addIdentifyNewest now g sid calls).2.2 = calls := by
  unfold addIdentifyNewest
  cases hg : g.torrents with
  | none => rfl
  | some l =>
    cases l with
    | nil => rfl
    | cons t0 rest =>
      dsimp only
      split_ifs <;> rfl

/-- C8 (corrected): the list, get-by-id, pause and delete operations use
the cached session token without any authentication call whenever a
non-empty token is cached and the remote does not reject it as
unauthorized; the add operation, however, always begins with a fresh
authentication call regardless of the cached token (qbittorrent.ts:
455-461 forces a login before every add). -/
theorem C8_lazy_session_add_excepted :
    (∀ (cfg : QbitConfig) (lo1 lo2 : Option JStr) (f1 f2 : FetchR)
        (sid : JStr), truthyStr sid = true → f1 ≠ FetchR.err403 →
        NetCall.auth ∉ (getTorrents cfg lo1 lo2 f1 f2 sid).2.2)
    ∧ (∀ (cfg : QbitConfig) (lo1 lo2 : Option JStr) (f1 f2 : FetchR)
        (sid : JStr), truthyStr sid = true → f1 ≠ FetchR.err403 →
        NetCall.auth ∉ (getTorrentByHash cfg lo1 lo2 f1 f2 sid).2.2)
    ∧ (∀ (cfg : QbitConfig) (lo1 lo2 : Option JStr) (p1 p2 : PostR)
        (hashes : List JStr) (sid : JStr),
        truthyStr sid = true → p1 ≠ PostR.err403 →
        NetCall.auth ∉ (qbitPauseTorrents cfg lo1 lo2 p1 p2 hashes sid).2.2)
    ∧ (∀ (cfg : QbitConfig) (lo1 : Option JStr) (p1 : PostR) (sid : JStr),
        truthyStr sid = true →
        NetCall.auth ∉ (qbitDeleteTorrents cfg lo1 p1 sid).2.2)
    ∧ (∀ (cfg : QbitConfig) (lo1 : Option JStr) (ap1 : AddPostR) (now : Int)
        (gt1 : GtOracles) (lo2 : Option JStr) (ap2 : AddPostR)
        (gt2 : GtOracles) (sid : JStr),
        truthyOptStr cfg.url = true → truthyOptStr cfg.username = true →
        truthyOptStr cfg.password = true →
        (addTorrentByMagnet cfg lo1 ap1 now gt1 lo2 ap2 gt2 sid).2.2.head?
          = some NetCall.auth) := by
  refine ⟨?_, ?_, ?_, ?_, ?_⟩
  · intro cfg lo1 lo2 f1 f2 sid hsid hf1
    have hred : getTorrents cfg lo1 lo2 f1 f2 sid
        = getTorrentsFetch cfg lo2 f1 f2 sid [] := by
      unfold getTorrents
      rw [hsid]
      rfl
    rw [hred]
    unfold getTorrentsFetch
    cases hu : truthyOptStr cfg.url
    · simp
    · cases f1 with
      | ok ts => simp
      | errOther => simp
      | err403 => exact absurd rfl hf1
  · intro cfg lo1 lo2 f1 f2 sid hsid hf1
    have hred : getTorrentByHash cfg lo1 lo2 f1 f2 sid
        = getTorrentByHash.getTorrentByHashFetch cfg lo2 f1 f2 sid [] := by
      unfold getTorrentByHash
      rw [hsid]
      rfl
    rw [hred]
    unfold getTorrentByHash.getTorrentByHashFetch
    cases hu : truthyOptStr cfg.url
    · simp
    · cases f1 with
      | ok ts => simp
      | errOther => simp
      | err403 => exact absurd rfl hf1
  · intro cfg lo1 lo2 p1 p2 hashes sid hsid hp1
    cases he : hashes.isEmpty
    · have hred : qbitPauseTorrents cfg lo1 lo2 p1 p2 hashes sid
          = qbitPauseTorrents.qbitPauseTorrentsPost cfg lo2 p1 p2 sid [] := by
        unfold qbitPauseTorrents
        rw [he, hsid]
        rfl
      rw [hred]
      unfold qbitPauseTorrents.qbitPauseTorrentsPost
      cases hu : truthyOptStr cfg.url
      · simp
      · cases p1 with
        | ok200 => simp
        | okBad => simp
        | errNet => simp
        | err403 => exact absurd rfl hp1
    · have hred : qbitPauseTorrents cfg lo1 lo2 p1 p2 hashes sid
          = (true, sid, []) := by
        unfold qbitPauseTorrents
        rw [he]
        rfl
      rw [hred]
      simp
  · intro cfg lo1 p1 sid hsid
    have hred : qbitDeleteTorrents cfg lo1 p1 sid
        = qbitDeleteTorrents.qbitDeleteTorrentsPost cfg p1 sid [] := by
      unfold qbitDeleteTorrents
      rw [hsid]
      rfl
    rw [hred]
    unfold qbitDeleteTorrents.qbitDeleteTorrentsPost
    cases hu : truthyOptStr cfg.url
    · simp
    · cases p1 <;> simp
  · intro cfg lo1 ap1 now gt1 lo2 ap2 gt2 sid hurl huser hpass
    unfold addTorrentByMagnet
    cases lo1 with
    | none =>
      rw [login_config_none hurl huser hpass]
      rfl
    | some s =>
      rw [login_config_some hurl huser hpass]
      dsimp only
      simp only [hurl]
      cases ap1 with
      | okText body =>
        dsimp only
        split_ifs <;> simp [addIdentifyNewest_calls]
      | errResp => rfl
      | errNet => rfl
      | err403 =>
        dsimp only
        cases lo2 with
        | none =>
          rw [login_config_none hurl huser hpass]
          rfl
        | some s2 =>
          rw [login_config_some hurl huser hpass]
          dsimp only
          cases ap2 with
          | okText body2 =>
            dsimp only
            split_ifs <;> simp [addIdentifyNewest_calls]
          | errResp => rfl
          | errNet => rfl
          | err403 => rfl

/-- Counterexample to C8 as stated: an add invoked with a non-empty cached
session token still performs an authentication call. -/
theorem C8_add_always_authenticates_counterexample :
    truthyStr (str "SID=cached") = true
    ∧ NetCall.auth ∈ (addTorrentByMagnet wCfg (some (str "SID=new"))
        (AddPostR.okText (str "Ok.")) 0
        ⟨none, none, FetchR.errOther, FetchR.errOther⟩ none AddPostR.errNet
        ⟨none, none, FetchR.errOther, FetchR.errOther⟩
        (str "SID=cached")).2.2 := by decide

/-- Witness for the amended C8 at a concrete add call. -/
theorem C8_lazy_session_add_excepted_witness :
    (addTorrentByMagnet wCfg (some (str "SID=new"))
        (AddPostR.okText (str "Ok.")) 0
        ⟨none, none, FetchR.errOther, FetchR.errOther⟩ none AddPostR.errNet
        ⟨none, none, FetchR.errOther, FetchR.errOther⟩
        (str "SID=cached")).2.2.head? = some NetCall.auth :=
  C8_lazy_session_add_excepted.2.2.2.2 wCfg (some (str "SID=new"))
    (AddPostR.okText (str "Ok.")) 0
    ⟨none, none, FetchR.errOther, FetchR.errOther⟩ none AddPostR.errNet
    ⟨none, none, FetchR.errOther, FetchR.errOther⟩ (str "SID=cached")
    (by decide) (by decide) (by decide)

/-- Witness for C7 on a two-snapshot list (one downloading, one complete)
over the empty map. -/
theorem C7_reconcile_idempotent_witness :
    updateTorrentCompletionStatus 10 2800
        [wTorrent, { wTorrent with hash := str "h2", progress := 1 }]
        (updateTorrentCompletionStatus 10 2800
          [wTorrent, { wTorrent with hash := str "h2", progress := 1 }] [])
      = updateTorrentCompletionStatus 10 2800
          [wTorrent, { wTorrent with hash := str "h2", progress := 1 }] [] :=
  (C7_reconcile_idempotent 10 2800
    [wTorrent, { wTorrent with hash := str "h2", progress := 1 }] []
    (by decide)).1

end ETB
